import Mathlib

/-
Shallow embedding of the kasa bus-ticket system (src/kasa.cc) in Lean 4,
together with theorems checking the natural-language specification
against the code.

The embedding follows src/kasa.cc: the fare engine (tickets_data,
initialize_optimal_ticket_set, add_new_ticket, optimal_ticket_set),
the schedule store (is_valid_new_route, add_new_route), the trip
validator (check_trip_validity, scan_trip_request) and the trip
planner (plan_tickets).  C++ vectors indexed by duration are modelled
as total functions `Nat → Cell`; the allocated extent of the real
vectors is modelled separately (see row_alloc_len below).  C++ `int`
prices are modelled as `Nat` (the program's parser only ever produces
non-negative prices, and the spec fixes Price as a non-negative
integer); the INT_MAX sentinel is kept explicit.
-/

namespace Kasa

/-- kasa.cc:43 — `const int MAX_TRIP_LENGTH = 927`. -/
def MAX_TRIP_LENGTH : Nat := 927

/-- The C++ `INT_MAX` sentinel stored in unset DP cells (kasa.cc:67). -/
def INT_MAX : Nat := 2147483647

/-- One DP cell: best price for this (row, duration), and the id of the last
ticket used to realise it (`-1` when unset) — kasa.cc:19-21. -/
abbrev Cell := Nat × Int

/-- The `tickets_data` pair of kasa.cc:22: the ticket catalog (name,
clamped expiration) where the position is the id, and the three DP rows
(row k holds best prices using exactly k+1 tickets).  The source keeps the
rows in one vector of 3; here they are three fields, and the source's
`for (int i = 1; i < 3; i++)` loop is unrolled accordingly. -/
structure TicketsData where
  tickets : List (String × Nat)
  row0 : Nat → Cell
  row1 : Nat → Cell
  row2 : Nat → Cell

/-- kasa.cc:66-77 `initialize_optimal_ticket_set`: every cell starts as
`(INT_MAX, -1)` except duration 0, which costs 0 tickets. -/
def initial_ticket_data : TicketsData where
  tickets := []
  row0 := fun d => if d = 0 then (0, -1) else (INT_MAX, -1)
  row1 := fun d => if d = 0 then (0, -1) else (INT_MAX, -1)
  row2 := fun d => if d = 0 then (0, -1) else (INT_MAX, -1)

/-- kasa.cc:97-99: `if (expiration_time > MAX_TRIP_LENGTH) expiration_time =
MAX_TRIP_LENGTH`. -/
def clamp_expiration (e : Nat) : Nat :=
  if MAX_TRIP_LENGTH < e then MAX_TRIP_LENGTH else e

/-- kasa.cc:105-111, the single-ticket update: descend from `i = e` to 1,
replacing every cell strictly more expensive than `price`, breaking at the
first cell that is already ≤ `price`. -/
def descend (price : Nat) (id : Int) : Nat → (Nat → Cell) → (Nat → Cell)
  | 0, r => r
  | i + 1, r =>
    if price < (r (i + 1)).1 then
      descend price id i (Function.update r (i + 1) (price, id))
    else r

/-- The same descent without the early `break` (checking every duration from
`e` down to 1); used to state the refinement claim about the short-circuit. -/
def descendFull (price : Nat) (id : Int) : Nat → (Nat → Cell) → (Nat → Cell)
  | 0, r => r
  | i + 1, r =>
    descendFull price id i
      (if price < (r (i + 1)).1 then Function.update r (i + 1) (price, id) else r)

/-- kasa.cc:113-120, one row of the at-least-two-tickets update: for every
`j` from `e+1` to MAX_TRIP_LENGTH, the candidate price is
`min(INT_MAX, price + lower[j - e])` (the saturating `long long` sum of the
source), improving the cell when strictly cheaper.  The loop body for column
`j` only reads the lower row and writes column `j`, so the loop is a pointwise
function update. -/
def updRow (lower cur : Nat → Cell) (price : Nat) (id : Int) (e : Nat) : Nat → Cell :=
  fun j =>
    if e + 1 ≤ j ∧ j ≤ MAX_TRIP_LENGTH then
      let cand := min INT_MAX (price + (lower (j - e)).1)
      if cand < (cur j).1 then (cand, id) else cur j
    else cur j

/-- kasa.cc:88-123 `add_new_ticket`: reject a duplicate name (state
untouched), otherwise clamp the expiration, append the ticket (its id is its
position), run the single-ticket descent on row 0, then update rows 1 and 2
from the row below (each against the already-updated lower row, as in the
source's `optimal_ticket_set[i - 1]` read after the row `i - 1` pass). -/
def add_new_ticket (t : TicketsData) (ticket_name : String) (price : Nat)
    (expiration_time : Nat) : Bool × TicketsData :=
  if (t.tickets.map Prod.fst).contains ticket_name then (false, t)
  else
    let e := clamp_expiration expiration_time
    let id : Int := (t.tickets.length : Int)
    let r0 := descend price id e t.row0
    let r1 := updRow r0 t.row1 price id e
    let r2 := updRow r1 t.row2 price id e
    (true, ⟨t.tickets ++ [(ticket_name, e)], r0, r1, r2⟩)

/-- `add_new_ticket` with the full (no early break) row-0 descent; reference
implementation for the refinement claim. -/
def add_new_ticket_full (t : TicketsData) (ticket_name : String) (price : Nat)
    (expiration_time : Nat) : Bool × TicketsData :=
  if (t.tickets.map Prod.fst).contains ticket_name then (false, t)
  else
    let e := clamp_expiration expiration_time
    let id : Int := (t.tickets.length : Int)
    let r0 := descendFull price id e t.row0
    let r1 := updRow r0 t.row1 price id e
    let r2 := updRow r1 t.row2 price id e
    (true, ⟨t.tickets ++ [(ticket_name, e)], r0, r1, r2⟩)

/-- Row selector: row index `k` = tickets_count − 1 (kasa.cc:173 indexes
`optimal_ticket_set[tickets_count - 1]`). -/
def rowAt (t : TicketsData) : Nat → Nat → Cell
  | 0 => t.row0
  | 1 => t.row1
  | _ => t.row2

/-- kasa.cc:170-178, the reconstruction loop: while `pos > 0`, read the
provenance id of the current cell, emit that ticket's name and subtract its
expiration window, moving one row down.  The C loop decrements
`tickets_count` each iteration, which here is the structural fuel; the two
`[]` fallbacks (fuel exhausted with `pos > 0`, or an id outside the catalog,
i.e. the `-1` sentinel) correspond to out-of-bounds indexing in the C code
and are unreachable from states produced by add_new_ticket. -/
def reconstruct (t : TicketsData) : Nat → Int → List String
  | 0, _ => []
  | tc + 1, pos =>
    if 0 < pos then
      let cell := rowAt t tc pos.toNat
      if cell.2 < 0 then []
      else
        match t.tickets.get? cell.2.toNat with
        | some tk => tk.1 :: reconstruct t tc (pos - (tk.2 : Int))
        | none => []
    else []

/-- kasa.cc:139-181 `optimal_ticket_set`: reject trip lengths outside
(0, MAX_TRIP_LENGTH]; find how many tickets to buy by scanning the three
rows for the first strict improvement of the running best price (the source's
`i = 0..2` loop, unrolled); reconstruct the names if a set was found. -/
def optimal_ticket_set (t : TicketsData) (trip_length : Int) : List String :=
  if (MAX_TRIP_LENGTH : Int) < trip_length ∨ trip_length ≤ 0 then []
  else
    let L := trip_length.toNat
    let s0 : Nat × Nat := (0, INT_MAX)
    let s1 : Nat × Nat := (if (t.row0 L).1 < s0.2 then 1 else s0.1, min s0.2 (t.row0 L).1)
    let s2 : Nat × Nat := (if (t.row1 L).1 < s1.2 then 2 else s1.1, min s1.2 (t.row1 L).1)
    let s3 : Nat × Nat := (if (t.row2 L).1 < s2.2 then 3 else s2.1, min s2.2 (t.row2 L).1)
    if s3.1 = 0 then [] else reconstruct t s3.1 trip_length

/-- kasa.cc:186-190. -/
def ticket_set_found (tickets : List String) : Bool :=
  if tickets.length = 0 then false else true

/-- One `register_ticket` request as delivered by the parser
(kasa.cc:523-541): a name, a price in the smallest currency unit and a raw
expiration time, both non-negative. -/
structure Call where
  name : String
  price : Nat
  expiration : Nat

/-- Placeholder catalog entry for out-of-range `getD` reads. -/
def noCall : Call := ⟨"", 0, 0⟩

/-- Run a list of register_ticket requests against a fare-engine state,
in order (the program's processing loop, kasa.cc:594-630). -/
def processCalls (t : TicketsData) : List Call → TicketsData
  | [] => t
  | c :: cs => processCalls (add_new_ticket t c.name c.price c.expiration).2 cs

/-- The fare-engine state after a sequence of register_ticket requests. -/
def runCalls (cs : List Call) : TicketsData :=
  processCalls initial_ticket_data cs

/-- `processCalls` for the full-descent variant. -/
def processCallsFull (t : TicketsData) : List Call → TicketsData
  | [] => t
  | c :: cs => processCallsFull (add_new_ticket_full t c.name c.price c.expiration).2 cs

/-- `runCalls` for the full-descent variant. -/
def runCallsFull (cs : List Call) : TicketsData :=
  processCallsFull initial_ticket_data cs

/-- The accepted calls (the registered catalog, in registration order),
extending an already-accepted catalog: a call is accepted exactly when its
name is fresh, mirroring the duplicate check of add_new_ticket. -/
def catalogFrom (cat : List Call) : List Call → List Call
  | [] => cat
  | c :: cs =>
    if (cat.map Call.name).contains c.name then catalogFrom cat cs
    else catalogFrom (cat ++ [c]) cs

/-- The registered catalog produced by a sequence of register_ticket calls. -/
def catalog (cs : List Call) : List Call := catalogFrom [] cs

/-- The value row 0 holds at duration `d` after the catalog has been
registered: fold the catalog in registration order, taking a ticket whenever
it reaches duration `d` (clamped window ≥ d) and is strictly cheaper than the
best so far.  The second component is the provenance id. -/
def row0Spec (d : Nat) : Nat → Cell → List Call → Cell
  | _, acc, [] => acc
  | i, acc, c :: cs =>
    row0Spec d (i + 1)
      (if d ≤ clamp_expiration c.expiration ∧ c.price < acc.1 then (c.price, (i : Int)) else acc) cs

/-- The minimum price over registered tickets whose clamped window is ≥ d
(INT_MAX if there is none). -/
def minPriceOver (cat : List Call) (d : Nat) : Nat :=
  cat.foldl (fun a c => if d ≤ clamp_expiration c.expiration then min a c.price else a) INT_MAX

/-- A multiset of registered tickets (given by catalog positions, repetition
allowed) whose clamped windows cover a trip of duration `d`. -/
def validPick (cat : List Call) (l : List Nat) (d : Nat) : Prop :=
  (∀ i ∈ l, i < cat.length) ∧
    d ≤ (l.map (fun i => clamp_expiration (cat.getD i noCall).expiration)).sum

/-- Total price of a multiset of catalog positions. -/
def pickPrice (cat : List Call) (l : List Nat) : Nat :=
  (l.map (fun i => (cat.getD i noCall).price)).sum

/-- Price of the registered ticket with a given name (0 if none: names are
unique in the catalog, so the first match is the ticket). -/
def priceOfName (cat : List Call) (nm : String) : Nat :=
  match cat.find? (fun c => c.name == nm) with
  | some c => c.price
  | none => 0

/-- Clamped window of the registered ticket with a given name (0 if none). -/
def windowOfName (cat : List Call) (nm : String) : Nat :=
  match cat.find? (fun c => c.name == nm) with
  | some c => clamp_expiration c.expiration
  | none => 0

/-- Total price of a list of returned ticket names. -/
def totalPrice (cat : List Call) (names : List String) : Nat :=
  (names.map (priceOfName cat)).sum

/-- Number of cells actually allocated per DP row:
`row.resize(MAX_TRIP_LENGTH, default_pair)` (kasa.cc:73), so the valid
indices of each row are 0 .. MAX_TRIP_LENGTH − 1. -/
def row_alloc_len : Nat := MAX_TRIP_LENGTH

/-- Column indices read and written by the single-ticket loop of
add_new_ticket for a clamped expiration `e`: `for (int i = e; i > 0; i--)`
(kasa.cc:106) touches `optimal_ticket_set[0][i]` for i = 1 .. e. -/
def row0_loop_cols (e : Nat) : List Nat := List.range' 1 e

/-- Column indices written by the multi-ticket loop of add_new_ticket for a
clamped expiration `e`: `for (size_t j = expiration_time + 1;
j <= MAX_TRIP_LENGTH; j++)` (kasa.cc:115) touches `optimal_ticket_set[i][j]`
for j = e+1 .. MAX_TRIP_LENGTH. -/
def multi_loop_cols (e : Nat) : List Nat := List.range' (e + 1) (MAX_TRIP_LENGTH - e)

/-- kasa.cc:36 `bus_schedule`: the map from a (stop name, route id) pair to
its scheduled time, modelled as a partial function. -/
abbrev Schedule := String × Int → Option Int

/-- `schedule.at(k)`: the source only ever calls it under a `count(k) > 0`
guard, so the default value is never observable. -/
def timeAt (sch : Schedule) (k : String × Int) : Int := (sch k).getD 0

/-- kasa.cc:39 `routes_data`: the set of registered route ids together with
the schedule.  The source's `std::set<int>` is used only through `count` and
`insert`, so a list with membership is a faithful model. -/
structure RoutesData where
  existing : List Int
  schedule : Schedule

/-- The fresh routes-data state of `main` (kasa.cc:615). -/
def initial_routes_data : RoutesData where
  existing := []
  schedule := fun _ => none

/-- The time-monotonicity pass of is_valid_new_route (kasa.cc:219-226):
walk the stops carrying `last_stop_time` (initialised to 0 in the source),
rejecting any stop whose time is ≤ the previous one. -/
def timesIncreasingFrom : Int → List (String × Int) → Bool
  | _, [] => true
  | last, p :: rest => if p.2 ≤ last then false else timesIncreasingFrom p.2 rest

/-- kasa.cc:210-231 `is_valid_new_route`: the route number must be fresh, the
stop list non-empty, the times strictly increasing starting from the initial
`last_stop_time = 0`, and the number of distinct stop names (the size of the
`visited_stops` set, here `dedup.length`) must equal the number of stops. -/
def is_valid_new_route (route_number : Int) (stops_on_route : List (String × Int))
    (existing_routes : List Int) : Bool :=
  if existing_routes.contains route_number then false
  else if stops_on_route.length = 0 then false
  else if timesIncreasingFrom 0 stops_on_route = false then false
  else if (stops_on_route.map Prod.fst).dedup.length < stops_on_route.length then false
  else true

/-- kasa.cc:243-245. -/
def create_schedule_point (route : Int) (bus_stop : String) : String × Int :=
  (bus_stop, route)

/-- kasa.cc:261-273 `add_new_route`: validity is checked first; on success the
id is inserted and every (stop, route) point is written to the schedule. -/
def add_new_route (route_number : Int) (stops_on_route : List (String × Int))
    (st : RoutesData) : Bool × RoutesData :=
  if is_valid_new_route route_number stops_on_route st.existing = false then (false, st)
  else
    (true,
      ⟨route_number :: st.existing,
        stops_on_route.foldl
          (fun sch p => Function.update sch (create_schedule_point route_number p.1) (some p.2))
          st.schedule⟩)

/-- kasa.cc:308-319: the flattened `trip_points` sequence
[departure_0, arrival_0, departure_1, arrival_1, …]. -/
def tripPoints : List String → List Int → List (String × Int)
  | s1 :: s2 :: ss, r :: rs =>
    create_schedule_point r s1 :: create_schedule_point r s2 :: tripPoints (s2 :: ss) rs
  | _, _ => []

/-- kasa.cc:321-328: the pass over consecutive pairs of trip points — both
must exist in the schedule, and the first time must not exceed the second. -/
def pairsOK (sch : Schedule) : List (String × Int) → Bool
  | a :: b :: rest =>
    if (sch a).isSome = false then false
    else if (sch b).isSome = false then false
    else if timeAt sch b < timeAt sch a then false
    else pairsOK sch (b :: rest)
  | _ => true

/-- kasa.cc:300-331 `check_trip_validity`. -/
def check_trip_validity (stops : List String) (routes : List Int) (sch : Schedule) : Bool :=
  if stops.length < 2 then false
  else if routes.length < 1 then false
  else if stops.length ≠ routes.length + 1 then false
  else pairsOK sch (tripPoints stops routes)

/-- The legs of a trip as (departure point, arrival point) pairs; this is
what `scan_trip_request` walks after zipping its two `transform`ed vectors. -/
def legs : List String → List Int → List ((String × Int) × (String × Int))
  | s1 :: s2 :: ss, r :: rs =>
    (create_schedule_point r s1, create_schedule_point r s2) :: legs (s2 :: ss) rs
  | _, _ => []

/-- kasa.cc:368-377, the wait-detection loop of scan_trip_request: walk the
legs carrying `last_time`; flag the first leg whose departure time differs
from it, then keep updating `last_time` to each leg's arrival time. -/
def scanLoop (sch : Schedule) :
    List ((String × Int) × (String × Int)) → Int → Bool → String → Bool × String
  | [], _, needs, w => (needs, w)
  | (dep, arr) :: rest, last, needs, w =>
    if needs = false ∧ timeAt sch dep ≠ last then
      scanLoop sch rest (timeAt sch arr) true dep.1
    else scanLoop sch rest (timeAt sch arr) needs w

/-- kasa.cc:351-383 `scan_trip_request`: build the departure and arrival
point vectors (`transform` over routes with stops, resp. stops.tail), run the
wait-detection loop starting from the first departure time, and return total
travel time, the wait flag and the first wait stop.  The fallback arm models
`front()`/`back()` on empty vectors, unreachable for validated trips. -/
def scan_trip_request (stops : List String) (routes : List Int) (sch : Schedule) :
    Int × Bool × String :=
  let deps := List.zipWith (fun r s => create_schedule_point r s) routes stops
  let arrs := List.zipWith (fun r s => create_schedule_point r s) routes stops.tail
  match deps.head?, arrs.getLast? with
  | some d0, some aL =>
    let nw := scanLoop sch (deps.zip arrs) (timeAt sch d0) false ""
    (timeAt sch aL - timeAt sch d0, nw.1, nw.2)
  | _, _ => (0, false, "")

/-- The observable outcome of plan_tickets (kasa.cc:400-439): the source
prints `:( stop`, `:|` or `! names`, or returns false on an invalid request. -/
inductive PlanResult
  | invalid
  | waitRequired (stop : String)
  | noFare
  | priced (names : List String)
deriving DecidableEq

/-- kasa.cc:400-439 `plan_tickets`, returning the printed outcome and the
updated tickets_sold counter. -/
def plan_tickets (stops : List String) (routes : List Int) (sch : Schedule)
    (t : TicketsData) (tickets_sold : Nat) : PlanResult × Nat :=
  if check_trip_validity stops routes sch = false then (.invalid, tickets_sold)
  else
    let r := scan_trip_request stops routes sch
    if r.2.1 = true then (.waitRequired r.2.2, tickets_sold)
    else
      let optimal_tickets := optimal_ticket_set t (r.1 + 1)
      if ticket_set_found optimal_tickets = false then (.noFare, tickets_sold)
      else (.priced optimal_tickets, tickets_sold + optimal_tickets.length)

/-- A small registered schedule (routes 1 = A→B, 2 = B→C with matching
times at B) used to instantiate trip-level theorems on concrete inputs. -/
def exampleRoutes : RoutesData :=
  (add_new_route 2 [("B", 20), ("C", 40)]
    (add_new_route 1 [("A", 10), ("B", 20)] initial_routes_data).2).2

/-- The invariant tying a fare-engine state to the catalog of accepted
register_ticket calls that produced it.  `row0Spec` pins down row 0 exactly;
rows 1 and 2 carry a provenance decomposition (each finite cell records a
last ticket and a finite lower-row remainder whose combined price bounds the
cell) and upper bounds by every 2- and 3-ticket multiset, which together pin
down the minimum over multisets. -/
structure TableInv (cat : List Call) (t : TicketsData) : Prop where
  tickets_eq : t.tickets = cat.map (fun c => (c.name, clamp_expiration c.expiration))
  names_nodup : (cat.map Call.name).Nodup
  row0_zero : t.row0 0 = (0, -1)
  row0_spec : ∀ d, 1 ≤ d → d ≤ MAX_TRIP_LENGTH →
    t.row0 d = row0Spec d 0 (INT_MAX, -1) cat
  bounded : ∀ d, (t.row0 d).1 ≤ INT_MAX ∧ (t.row1 d).1 ≤ INT_MAX ∧ (t.row2 d).1 ≤ INT_MAX
  prov1 : ∀ d, 1 ≤ d → d ≤ MAX_TRIP_LENGTH → (t.row1 d).1 < INT_MAX →
    ∃ i, i < cat.length ∧ (t.row1 d).2 = (i : Int)
      ∧ clamp_expiration ((cat.getD i noCall).expiration) < d
      ∧ (t.row0 (d - clamp_expiration ((cat.getD i noCall).expiration))).1 < INT_MAX
      ∧ (cat.getD i noCall).price
          + (t.row0 (d - clamp_expiration ((cat.getD i noCall).expiration))).1 ≤ (t.row1 d).1
  prov2 : ∀ d, 1 ≤ d → d ≤ MAX_TRIP_LENGTH → (t.row2 d).1 < INT_MAX →
    ∃ i, i < cat.length ∧ (t.row2 d).2 = (i : Int)
      ∧ clamp_expiration ((cat.getD i noCall).expiration) < d
      ∧ (t.row1 (d - clamp_expiration ((cat.getD i noCall).expiration))).1 < INT_MAX
      ∧ (cat.getD i noCall).price
          + (t.row1 (d - clamp_expiration ((cat.getD i noCall).expiration))).1 ≤ (t.row2 d).1
  pair_bound : ∀ d, 1 ≤ d → d ≤ MAX_TRIP_LENGTH → ∀ a b, a < cat.length → b < cat.length →
    d ≤ clamp_expiration ((cat.getD a noCall).expiration)
        + clamp_expiration ((cat.getD b noCall).expiration) →
    min (t.row0 d).1 (t.row1 d).1
      ≤ min INT_MAX ((cat.getD a noCall).price + (cat.getD b noCall).price)
  triple_bound : ∀ d, 1 ≤ d → d ≤ MAX_TRIP_LENGTH →
    ∀ a b c, a < cat.length → b < cat.length → c < cat.length →
    d ≤ clamp_expiration ((cat.getD a noCall).expiration)
        + clamp_expiration ((cat.getD b noCall).expiration)
        + clamp_expiration ((cat.getD c noCall).expiration) →
    min (t.row0 d).1 (min (t.row1 d).1 (t.row2 d).1)
      ≤ min INT_MAX
          ((cat.getD a noCall).price + (cat.getD b noCall).price + (cat.getD c noCall).price)

/-- Claim-side wait condition for leg `i` of a trip: the leg's departure
time differs from the preceding arrival time, where the preceding arrival
time of the first leg is defined as the first leg's own departure time (so
leg 0 never waits).  The preceding arrival point of leg i > 0 is
(stops[i], routes[i-1]). -/
def waitMismatch (stops : List String) (routes : List Int) (sch : Schedule) (i : Nat) : Prop :=
  timeAt sch (stops.getD i "", routes.getD i 0) ≠
    (if i = 0 then timeAt sch (stops.getD 0 "", routes.getD 0 0)
     else timeAt sch (stops.getD i "", routes.getD (i - 1) 0))

/-! ## Theorems -/

/-! ### Route validity (C5) -/

theorem timesIncreasingFrom_iff_chain (last : Int) (l : List (String × Int)) :
    timesIncreasingFrom last l = true ↔ List.Chain (· < ·) last (l.map Prod.snd) := by
  induction l generalizing last with
  | nil => simp [timesIncreasingFrom]
  | cons p rest ih =>
    rw [timesIncreasingFrom]
    by_cases h : p.2 ≤ last
    · simp only [if_pos h, List.map_cons, List.chain_cons]
      constructor
      · intro hc; exact absurd hc (by simp)
      · intro hc; omega
    · simp only [if_neg h, List.map_cons, List.chain_cons]
      rw [ih]
      constructor
      · intro hc; exact ⟨by omega, hc⟩
      · intro hc; exact hc.2

theorem chain_lt_forall_pos (a : Int) (l : List Int)
    (h : List.Chain (· < ·) a l) : ∀ x ∈ l, a < x := by
  induction l generalizing a with
  | nil => simp
  | cons b rest ih =>
    rw [List.chain_cons] at h
    intro x hx
    rcases List.mem_cons.1 hx with rfl | hx'
    · exact h.1
    · exact lt_trans h.1 (ih b h.2 x hx')

theorem dedup_length_lt_iff_not_nodup (l : List String) :
    l.dedup.length < l.length ↔ ¬ l.Nodup := by
  constructor
  · intro h hn
    rw [List.dedup_eq_self.2 hn] at h
    omega
  · intro hn
    rcases Nat.lt_or_ge l.dedup.length l.length with h | h
    · exact h
    · exfalso
      apply hn
      have hsub : l.dedup.Sublist l := l.dedup_sublist
      have hlen : l.dedup.length = l.length := le_antisymm hsub.length_le h
      have : l.dedup = l := hsub.eq_of_length hlen
      rw [← this]
      exact l.nodup_dedup

theorem chain_from_zero_iff (times : List Int) :
    List.Chain (· < ·) 0 times ↔
      (List.Chain' (· < ·) times ∧ ∀ t ∈ times, 0 < t) := by
  cases times with
  | nil => simp
  | cons a tl =>
    constructor
    · intro h
      have hall := chain_lt_forall_pos 0 (a :: tl) h
      rw [List.chain_cons] at h
      exact ⟨h.2, hall⟩
    · rintro ⟨hch, hpos⟩
      rw [List.chain_cons]
      exact ⟨hpos a (List.mem_cons_self a tl), hch⟩

/-- C5 (amended): add_new_route's validity accepts exactly when the id is
fresh, the stop list is non-empty, the stop names are pairwise distinct, the
times are strictly increasing along the sequence, and additionally every
scheduled time is strictly positive (the source initialises its running
`last_stop_time` to 0, so a first stop at time ≤ 0 is rejected even when the
times are strictly increasing). -/
theorem C5_route_validity_conditions :
    ∀ (n : Int) (stops : List (String × Int)) (existing : List Int),
      is_valid_new_route n stops existing = true ↔
        (¬ n ∈ existing ∧ stops ≠ [] ∧ (stops.map Prod.fst).Nodup
          ∧ List.Chain' (· < ·) (stops.map Prod.snd)
          ∧ ∀ time ∈ stops.map Prod.snd, 0 < time) := by
  intro n stops existing
  have hbool : is_valid_new_route n stops existing = true ↔
      (existing.contains n = false ∧ stops.length ≠ 0
        ∧ timesIncreasingFrom 0 stops = true
        ∧ ¬ (stops.map Prod.fst).dedup.length < stops.length) := by
    unfold is_valid_new_route
    split_ifs with h1 h2 h3 h4 <;> simp_all
  rw [hbool, timesIncreasingFrom_iff_chain, chain_from_zero_iff]
  have hlenmap : (stops.map Prod.fst).length = stops.length := List.length_map _ _
  have hc : existing.contains n = false ↔ ¬ n ∈ existing := by
    rw [← Bool.not_eq_true]
    exact not_congr List.elem_iff
  have hn : stops.length ≠ 0 ↔ stops ≠ [] := not_congr List.length_eq_zero
  have hd : ¬ (stops.map Prod.fst).dedup.length < stops.length ↔
      (stops.map Prod.fst).Nodup := by
    rw [← hlenmap, dedup_length_lt_iff_not_nodup]
    exact not_not
  rw [hc, hn, hd]
  tauto

/-- C5 witness: a positive-time strictly-increasing fresh route satisfying
all amended conditions is accepted. -/
theorem C5_route_validity_conditions_witness :
    is_valid_new_route 7 [("A", 1), ("B", 3)] [] = true :=
  (C5_route_validity_conditions 7 [("A", 1), ("B", 3)] []).mpr
    ⟨by simp, by simp, by decide, by simp [List.chain'_cons, List.chain'_singleton], by decide⟩

/-! ### Trip validation (C6) -/

theorem forall_lt_succ_iff {n : Nat} {P : Nat → Prop} :
    (∀ i < n + 1, P i) ↔ P 0 ∧ ∀ j < n, P (j + 1) := by
  constructor
  · intro h
    exact ⟨h 0 (by omega), fun j hj => h (j + 1) (by omega)⟩
  · rintro ⟨h0, hs⟩ i hi
    cases i with
    | zero => exact h0
    | succ j => exact hs j (by omega)

theorem pairsOK_iff_chain (sch : Schedule) (l : List (String × Int)) :
    pairsOK sch l = true ↔
      List.Chain' (fun a b => (sch a).isSome = true ∧ (sch b).isSome = true
        ∧ timeAt sch a ≤ timeAt sch b) l := by
  induction l with
  | nil => simp [pairsOK]
  | cons a tl ih =>
    cases tl with
    | nil => simp [pairsOK]
    | cons b rest =>
      rw [pairsOK, List.chain'_cons]
      split_ifs with h1 h2 h3
      · constructor
        · intro h; cases h
        · rintro ⟨⟨hpa, _, _⟩, _⟩
          rw [h1] at hpa
          cases hpa
      · constructor
        · intro h; cases h
        · rintro ⟨⟨_, hpb, _⟩, _⟩
          rw [h2] at hpb
          cases hpb
      · constructor
        · intro h; cases h
        · rintro ⟨⟨_, _, hs⟩, _⟩
          omega
      · have ha : (sch a).isSome = true := by
          revert h1
          cases (sch a).isSome <;> simp
        have hb : (sch b).isSome = true := by
          revert h2
          cases (sch b).isSome <;> simp
        have hab : timeAt sch a ≤ timeAt sch b := not_lt.1 h3
        rw [ih]
        simp [ha, hb, hab]

theorem chain'_and_decomp {α : Type} (P : α → Prop) (S : α → α → Prop) :
    ∀ (l : List α), 2 ≤ l.length →
      (List.Chain' (fun a b => P a ∧ P b ∧ S a b) l ↔
        ((∀ x ∈ l, P x) ∧ List.Chain' S l)) := by
  intro l
  induction l with
  | nil => intro h; simp at h
  | cons a tl ih =>
    intro hlen
    cases tl with
    | nil => simp at hlen
    | cons b rest =>
      rw [List.chain'_cons, List.chain'_cons (l := rest)]
      cases rest with
      | nil =>
        simp only [List.chain'_singleton, and_true, List.forall_mem_cons,
          List.forall_mem_nil]
        tauto
      | cons c rest' =>
        rw [ih (by simp)]
        simp only [List.forall_mem_cons]
        tauto

theorem tripPoints_eq_join (routes : List Int) :
    ∀ stops : List String, stops.length = routes.length + 1 →
      tripPoints stops routes =
        ((List.range routes.length).map (fun i =>
          [(stops.getD i "", routes.getD i 0),
            (stops.getD (i + 1) "", routes.getD i 0)])).join := by
  induction routes with
  | nil =>
    intro stops h
    cases stops with
    | nil => simp at h
    | cons s1 rest =>
      cases rest with
      | nil => simp [tripPoints]
      | cons s2 ss => simp at h
  | cons r rs ih =>
    intro stops h
    cases stops with
    | nil => simp at h
    | cons s1 rest =>
      cases rest with
      | nil => simp at h
      | cons s2 ss =>
        have hshape : (s2 :: ss).length = rs.length + 1 := by
          simp at h ⊢
          omega
        rw [tripPoints, ih (s2 :: ss) hshape]
        simp only [List.length_cons]
        rw [List.range_succ_eq_map]
        simp [List.map_map, Function.comp_def, create_schedule_point]

theorem tripPoints_length (routes : List Int) :
    ∀ stops : List String, stops.length = routes.length + 1 →
      (tripPoints stops routes).length = 2 * routes.length := by
  induction routes with
  | nil =>
    intro stops h
    cases stops with
    | nil => simp at h
    | cons s1 rest =>
      cases rest with
      | nil => simp [tripPoints]
      | cons s2 ss => simp at h
  | cons r rs ih =>
    intro stops h
    cases stops with
    | nil => simp at h
    | cons s1 rest =>
      cases rest with
      | nil => simp at h
      | cons s2 ss =>
        have hshape : (s2 :: ss).length = rs.length + 1 := by
          simp at h ⊢
          omega
        rw [tripPoints]
        simp [ih (s2 :: ss) hshape]
        omega

/-- C6: check_trip_validity returns true exactly when the query has ≥ 2
stops, ≥ 1 routes, |stops| = |routes| + 1, every schedule point
(stops[i], routes[i]) and (stops[i+1], routes[i]) exists in the schedule,
and the scheduled times of the flattened sequence
[departure_0, arrival_0, departure_1, arrival_1, …] are non-decreasing
across every consecutive pair. -/
theorem C6_trip_validity_iff :
    ∀ (stops : List String) (routes : List Int) (sch : Schedule),
      check_trip_validity stops routes sch = true ↔
        (2 ≤ stops.length ∧ 1 ≤ routes.length ∧ stops.length = routes.length + 1
          ∧ (∀ i < routes.length,
              (sch (stops.getD i "", routes.getD i 0)).isSome = true
              ∧ (sch (stops.getD (i + 1) "", routes.getD i 0)).isSome = true)
          ∧ List.Chain' (· ≤ ·)
              (((List.range routes.length).map (fun i =>
                [timeAt sch (stops.getD i "", routes.getD i 0),
                  timeAt sch (stops.getD (i + 1) "", routes.getD i 0)])).join)) := by
  intro stops routes sch
  unfold check_trip_validity
  split_ifs with h1 h2 h3
  · constructor
    · intro h; cases h
    · rintro ⟨h, _⟩; omega
  · constructor
    · intro h; cases h
    · rintro ⟨_, h, _⟩; omega
  · constructor
    · intro h; cases h
    · rintro ⟨_, _, h, _⟩; exact h3 h
  · have hsh : stops.length = routes.length + 1 := not_not.1 h3
    have hlen2 : 2 ≤ (tripPoints stops routes).length := by
      rw [tripPoints_length routes stops hsh]
      omega
    rw [pairsOK_iff_chain,
      chain'_and_decomp (fun p => (sch p).isSome = true)
        (fun a b => timeAt sch a ≤ timeAt sch b) _ hlen2]
    have hmem : (∀ x ∈ tripPoints stops routes, (sch x).isSome = true) ↔
        (∀ i < routes.length,
          (sch (stops.getD i "", routes.getD i 0)).isSome = true
          ∧ (sch (stops.getD (i + 1) "", routes.getD i 0)).isSome = true) := by
      rw [tripPoints_eq_join routes stops hsh]
      constructor
      · intro h i hi
        refine ⟨h _ ?_, h _ ?_⟩ <;>
          · rw [List.mem_join]
            refine ⟨_, List.mem_map_of_mem _ (List.mem_range.2 hi), by simp⟩
      · intro h x hx
        rw [List.mem_join] at hx
        obtain ⟨lx, hlx, hxin⟩ := hx
        rw [List.mem_map] at hlx
        obtain ⟨i, hi, rfl⟩ := hlx
        rw [List.mem_range] at hi
        simp only [List.mem_cons, List.not_mem_nil, or_false] at hxin
        rcases hxin with rfl | rfl
        · exact (h i hi).1
        · exact (h i hi).2
    have hchain : List.Chain' (fun a b => timeAt sch a ≤ timeAt sch b)
        (tripPoints stops routes) ↔
        List.Chain' (· ≤ ·)
          (((List.range routes.length).map (fun i =>
            [timeAt sch (stops.getD i "", routes.getD i 0),
              timeAt sch (stops.getD (i + 1) "", routes.getD i 0)])).join) := by
      rw [← List.chain'_map (f := timeAt sch)]
      rw [tripPoints_eq_join routes stops hsh]
      rw [List.map_join, List.map_map]
      exact Iff.rfl
    constructor
    · rintro ⟨hm, hc⟩
      exact ⟨by omega, by omega, hsh, hmem.1 hm, hchain.1 hc⟩
    · rintro ⟨_, _, _, hm, hc⟩
      exact ⟨hmem.2 hm, hchain.2 hc⟩

/-- C6 witness: the valid two-leg trip A→B→C over exampleRoutes satisfies
all conditions of the equivalence. -/
theorem C6_trip_validity_iff_witness :
    2 ≤ (["A", "B", "C"] : List String).length
    ∧ 1 ≤ ([1, 2] : List Int).length
    ∧ (["A", "B", "C"] : List String).length = ([1, 2] : List Int).length + 1
    ∧ (∀ i < ([1, 2] : List Int).length,
        (exampleRoutes.schedule
            ((["A", "B", "C"] : List String).getD i "", ([1, 2] : List Int).getD i 0)).isSome = true
        ∧ (exampleRoutes.schedule
            ((["A", "B", "C"] : List String).getD (i + 1) "",
              ([1, 2] : List Int).getD i 0)).isSome = true)
    ∧ List.Chain' (· ≤ ·)
        (((List.range ([1, 2] : List Int).length).map (fun i =>
          [timeAt exampleRoutes.schedule
              ((["A", "B", "C"] : List String).getD i "", ([1, 2] : List Int).getD i 0),
            timeAt exampleRoutes.schedule
              ((["A", "B", "C"] : List String).getD (i + 1) "",
                ([1, 2] : List Int).getD i 0)])).join) :=
  (C6_trip_validity_iff ["A", "B", "C"] [1, 2] exampleRoutes.schedule).mp (by decide)

/-! ### Trip scanning (C7) -/

theorem scanLoop_sticky (sch : Schedule) :
    ∀ (ps : List ((String × Int) × (String × Int))) (last : Int) (w : String),
      scanLoop sch ps last true w = (true, w) := by
  intro ps
  induction ps with
  | nil => intro last w; rfl
  | cons p rest ih =>
    intro last w
    obtain ⟨dep, arr⟩ := p
    rw [scanLoop, if_neg (by simp)]
    exact ih _ _

/-- Generic characterisation of the wait-detection loop started with an
un-flagged state and an arbitrary `last` time. -/
theorem scanLoop_false_char (sch : Schedule) :
    ∀ (ps : List ((String × Int) × (String × Int))) (last : Int),
      ((scanLoop sch ps last false "").1 = true ↔
        ∃ j < ps.length, timeAt sch (ps.getD j default).1 ≠
          (if j = 0 then last else timeAt sch (ps.getD (j - 1) default).2))
      ∧ (∀ j < ps.length,
          timeAt sch (ps.getD j default).1 ≠
            (if j = 0 then last else timeAt sch (ps.getD (j - 1) default).2) →
          (∀ j' < j, ¬ timeAt sch (ps.getD j' default).1 ≠
            (if j' = 0 then last else timeAt sch (ps.getD (j' - 1) default).2)) →
          (scanLoop sch ps last false "").2 = (ps.getD j default).1.1)
      ∧ ((∀ j < ps.length, ¬ timeAt sch (ps.getD j default).1 ≠
            (if j = 0 then last else timeAt sch (ps.getD (j - 1) default).2)) →
          (scanLoop sch ps last false "").2 = "") := by
  intro ps
  induction ps with
  | nil =>
    intro last
    refine ⟨by simp [scanLoop], by simp, by intro h; rfl⟩
  | cons p rest ih =>
    intro last
    obtain ⟨dep, arr⟩ := p
    by_cases hm : timeAt sch dep ≠ last
    · have hred : scanLoop sch ((dep, arr) :: rest) last false "" = (true, dep.1) := by
        rw [scanLoop, if_pos ⟨rfl, hm⟩, scanLoop_sticky]
      refine ⟨?_, ?_, ?_⟩
      · rw [hred]
        constructor
        · intro _
          exact ⟨0, by simp, by simpa using hm⟩
        · intro _
          rfl
      · intro j hj hmj hnone
        rcases Nat.eq_zero_or_pos j with rfl | hpos
        · rw [hred]
          simp
        · exfalso
          exact hnone 0 hpos (by simpa using hm)
      · intro hnone
        exact absurd (by simpa using hm) (hnone 0 (by simp))
    · have heq : timeAt sch dep = last := not_not.1 (by simpa using hm)
      have hred : scanLoop sch ((dep, arr) :: rest) last false "" =
          scanLoop sch rest (timeAt sch arr) false "" := by
        rw [scanLoop, if_neg (by simp [heq])]
      obtain ⟨iha, ihb, ihc⟩ := ih (timeAt sch arr)
      have htrans : ∀ j : Nat,
          (timeAt sch (rest.getD j default).1 ≠
            (if j = 0 then timeAt sch arr else timeAt sch (rest.getD (j - 1) default).2)) ↔
          (timeAt sch ((((dep, arr) :: rest).getD (j + 1) default)).1 ≠
            (if j + 1 = 0 then last
             else timeAt sch ((((dep, arr) :: rest).getD (j + 1 - 1) default)).2)) := by
        intro j
        cases j with
        | zero => simp
        | succ k => simp
      refine ⟨?_, ?_, ?_⟩
      · rw [hred, iha]
        constructor
        · rintro ⟨j, hj, hmj⟩
          exact ⟨j + 1, by simpa using hj, (htrans j).1 hmj⟩
        · rintro ⟨j, hj, hmj⟩
          cases j with
          | zero => exact absurd (by simpa using hmj) (by simpa using heq)
          | succ k =>
            exact ⟨k, by simpa using hj, (htrans k).2 hmj⟩
      · intro j hj hmj hnone
        cases j with
        | zero => exact absurd (by simpa using hmj) (by simpa using heq)
        | succ k =>
          rw [hred]
          have : (scanLoop sch rest (timeAt sch arr) false "").2 =
              (rest.getD k default).1.1 := by
            apply ihb k (by simpa using hj) ((htrans k).2 hmj)
            intro j' hj'
            exact fun hc => hnone (j' + 1) (by omega) ((htrans j').1 hc)
          simpa using this
      · intro hnone
        rw [hred]
        apply ihc
        intro j hj
        exact fun hc => hnone (j + 1) (by simpa using hj) ((htrans j).1 hc)

theorem legs_zipWith (routes : List Int) :
    ∀ stops : List String,
      ((List.zipWith (fun r s => create_schedule_point r s) routes stops).zip
        (List.zipWith (fun r s => create_schedule_point r s) routes stops.tail))
        = legs stops routes := by
  induction routes with
  | nil =>
    intro stops
    cases stops <;> simp [legs]
  | cons r rs ih =>
    intro stops
    cases stops with
    | nil => simp [legs]
    | cons s1 rest =>
      cases rest with
      | nil => simp [legs]
      | cons s2 ss =>
        have := ih (s2 :: ss)
        simp only [List.tail_cons] at this ⊢
        rw [legs]
        simp only [List.zipWith_cons_cons, List.zip_cons_cons]
        rw [← this]

theorem legs_length (routes : List Int) :
    ∀ stops : List String, stops.length = routes.length + 1 →
      (legs stops routes).length = routes.length := by
  induction routes with
  | nil =>
    intro stops h
    cases stops with
    | nil => simp at h
    | cons s1 rest =>
      cases rest with
      | nil => simp [legs]
      | cons s2 ss => simp at h
  | cons r rs ih =>
    intro stops h
    cases stops with
    | nil => simp at h
    | cons s1 rest =>
      cases rest with
      | nil => simp at h
      | cons s2 ss =>
        rw [legs]
        have hshape : (s2 :: ss).length = rs.length + 1 := by
          simp at h ⊢
          omega
        simp [ih (s2 :: ss) hshape]

theorem legs_getD (routes : List Int) :
    ∀ stops : List String, stops.length = routes.length + 1 →
      ∀ i < routes.length,
        (legs stops routes).getD i default =
          ((stops.getD i "", routes.getD i 0), (stops.getD (i + 1) "", routes.getD i 0)) := by
  induction routes with
  | nil =>
    intro stops _ i hi
    simp at hi
  | cons r rs ih =>
    intro stops h i hi
    cases stops with
    | nil => simp at h
    | cons s1 rest =>
      cases rest with
      | nil => simp at h
      | cons s2 ss =>
        have hshape : (s2 :: ss).length = rs.length + 1 := by
          simp at h ⊢
          omega
        rw [legs]
        cases i with
        | zero => simp [create_schedule_point]
        | succ k =>
          have hk : k < rs.length := by simpa using hi
          simp only [List.getD_cons_succ]
          exact ih (s2 :: ss) hshape k hk

theorem zip_arrs_getLast (routes : List Int) :
    ∀ stops : List String, stops.length = routes.length + 1 → 1 ≤ routes.length →
      (List.zipWith (fun r s => create_schedule_point r s) routes stops.tail).getLast? =
        some (stops.getD routes.length "", routes.getD (routes.length - 1) 0) := by
  induction routes with
  | nil =>
    intro stops _ h
    simp at h
  | cons r rs ih =>
    intro stops hsh _
    cases stops with
    | nil => simp at hsh
    | cons s1 rest =>
      cases rest with
      | nil => simp at hsh
      | cons s2 ss =>
        cases rs with
        | nil =>
          have hss : ss = [] := by simpa using hsh
          subst hss
          simp [create_schedule_point]
        | cons r2 rs' =>
          have hshape : (s2 :: ss).length = (r2 :: rs').length + 1 := by
            simp at hsh ⊢
            omega
          have hlast := ih (s2 :: ss) hshape (by simp)
          simp only [List.tail_cons] at hlast ⊢
          cases ss with
          | nil => simp at hshape
          | cons s3 ss' =>
            rw [List.zipWith_cons_cons]
            rw [List.zipWith_cons_cons]
            rw [List.zipWith_cons_cons] at hlast
            rw [List.getLast?_cons_cons, hlast]
            simp [List.getD_cons_succ, Nat.add_sub_cancel]

theorem scan_reduce (sch : Schedule) (r : Int) (rs : List Int) (s1 s2 : String)
    (ss : List String)
    (hsh : (s1 :: s2 :: ss : List String).length = (r :: rs : List Int).length + 1) :
    scan_trip_request (s1 :: s2 :: ss) (r :: rs) sch =
      (timeAt sch ((s1 :: s2 :: ss).getD (r :: rs : List Int).length "",
          (r :: rs).getD ((r :: rs : List Int).length - 1) 0)
        - timeAt sch (s1, r),
       scanLoop sch (legs (s1 :: s2 :: ss) (r :: rs)) (timeAt sch (s1, r)) false "") := by
  have hlast := zip_arrs_getLast (r :: rs) (s1 :: s2 :: ss) hsh (by simp)
  simp only [List.tail_cons] at hlast
  have hlegs := legs_zipWith (r :: rs) (s1 :: s2 :: ss)
  simp only [List.tail_cons] at hlegs
  rw [scan_trip_request]
  simp only [List.tail_cons, hlast]
  rw [List.zipWith_cons_cons]
  simp only [List.head?_cons]
  rw [← List.zipWith_cons_cons (f := fun r s => create_schedule_point r s), hlegs]
  rfl

/-- C7: for every itinerary accepted by check_trip_validity,
scan_trip_request returns the final leg's arrival time minus the first leg's
departure time, flags a wait exactly when some leg's departure time differs
from the preceding arrival time (the first leg compares against its own
departure time, so it never triggers), reports as first_wait_stop the
departure stop's name of the earliest such leg, and reports the empty string
when no wait is required. -/
theorem C7_scan_contract :
    ∀ (stops : List String) (routes : List Int) (sch : Schedule),
      check_trip_validity stops routes sch = true →
      (scan_trip_request stops routes sch).1 =
          timeAt sch (stops.getD routes.length "", routes.getD (routes.length - 1) 0)
            - timeAt sch (stops.getD 0 "", routes.getD 0 0)
      ∧ ((scan_trip_request stops routes sch).2.1 = true ↔
          ∃ i < routes.length, waitMismatch stops routes sch i)
      ∧ (∀ i < routes.length, waitMismatch stops routes sch i →
          (∀ j < i, ¬ waitMismatch stops routes sch j) →
          (scan_trip_request stops routes sch).2.2 = stops.getD i "")
      ∧ ((∀ i < routes.length, ¬ waitMismatch stops routes sch i) →
          (scan_trip_request stops routes sch).2.2 = "") := by
  intro stops routes sch hv
  have hfacts : ¬ stops.length < 2 ∧ ¬ routes.length < 1
      ∧ stops.length = routes.length + 1 := by
    unfold check_trip_validity at hv
    split_ifs at hv with h1 h2 h3
    exact ⟨h1, h2, not_not.1 h3⟩
  obtain ⟨hs2, hr1, hsh⟩ := hfacts
  cases routes with
  | nil => simp at hr1
  | cons r rs =>
  cases stops with
  | nil => simp at hsh
  | cons s1 rest =>
  cases rest with
  | nil => simp at hsh
  | cons s2 ss =>
  rw [scan_reduce sch r rs s1 s2 ss hsh]
  have hlen : (legs (s1 :: s2 :: ss) (r :: rs)).length = (r :: rs : List Int).length :=
    legs_length (r :: rs) (s1 :: s2 :: ss) hsh
  have hgd := legs_getD (r :: rs) (s1 :: s2 :: ss) hsh
  obtain ⟨cha, chb, chc⟩ :=
    scanLoop_false_char sch (legs (s1 :: s2 :: ss) (r :: rs)) (timeAt sch (s1, r))
  have hmm : ∀ j < (r :: rs : List Int).length,
      ((timeAt sch ((legs (s1 :: s2 :: ss) (r :: rs)).getD j default).1 ≠
        (if j = 0 then timeAt sch (s1, r)
         else timeAt sch ((legs (s1 :: s2 :: ss) (r :: rs)).getD (j - 1) default).2)) ↔
        waitMismatch (s1 :: s2 :: ss) (r :: rs) sch j) := by
    intro j hj
    unfold waitMismatch
    rw [hgd j hj]
    cases j with
    | zero => simp
    | succ k =>
      simp only [Nat.add_sub_cancel]
      rw [hgd k (by omega)]
      simp
  refine ⟨rfl, ?_, ?_, ?_⟩
  · rw [cha]
    constructor
    · rintro ⟨j, hj, hmj⟩
      have hj' : j < (r :: rs : List Int).length := by omega
      exact ⟨j, hj', (hmm j hj').1 hmj⟩
    · rintro ⟨j, hj, hmj⟩
      exact ⟨j, by omega, (hmm j hj).2 hmj⟩
  · intro i hi hwi hnone
    have h2 := chb i (by omega) ((hmm i hi).2 hwi)
      (fun j' hj' hc => hnone j' hj' ((hmm j' (by omega)).1 hc))
    rw [h2, hgd i hi]
  · intro hnone
    exact chc (fun j hj hc => hnone j (by omega) ((hmm j (by omega)).1 hc))

/-- C7 witness: the no-wait trip A→B→C over exampleRoutes has duration 30,
no wait flag and an empty first-wait stop. -/
theorem C7_scan_contract_witness :
    (scan_trip_request ["A", "B", "C"] [1, 2] exampleRoutes.schedule).1 =
        timeAt exampleRoutes.schedule
            ((["A", "B", "C"] : List String).getD ([1, 2] : List Int).length "",
              ([1, 2] : List Int).getD (([1, 2] : List Int).length - 1) 0)
          - timeAt exampleRoutes.schedule
              ((["A", "B", "C"] : List String).getD 0 "", ([1, 2] : List Int).getD 0 0)
    ∧ ((scan_trip_request ["A", "B", "C"] [1, 2] exampleRoutes.schedule).2.1 = true ↔
        ∃ i < ([1, 2] : List Int).length,
          waitMismatch ["A", "B", "C"] [1, 2] exampleRoutes.schedule i)
    ∧ (∀ i < ([1, 2] : List Int).length,
        waitMismatch ["A", "B", "C"] [1, 2] exampleRoutes.schedule i →
        (∀ j < i, ¬ waitMismatch ["A", "B", "C"] [1, 2] exampleRoutes.schedule j) →
        (scan_trip_request ["A", "B", "C"] [1, 2] exampleRoutes.schedule).2.2 =
          (["A", "B", "C"] : List String).getD i "")
    ∧ ((∀ i < ([1, 2] : List Int).length,
          ¬ waitMismatch ["A", "B", "C"] [1, 2] exampleRoutes.schedule i) →
        (scan_trip_request ["A", "B", "C"] [1, 2] exampleRoutes.schedule).2.2 = "") :=
  C7_scan_contract ["A", "B", "C"] [1, 2] exampleRoutes.schedule (by decide)

/-- C9: whenever add_new_route or add_new_ticket returns a rejection, the
entire state is unchanged — no route id added, no schedule point written, no
ticket appended, no fare-table cell modified. -/
theorem C9_rejection_is_pure :
    (∀ (n : Int) (stops : List (String × Int)) (st : RoutesData),
        (add_new_route n stops st).1 = false → (add_new_route n stops st).2 = st)
    ∧ (∀ (t : TicketsData) (nm : String) (p e : Nat),
        (add_new_ticket t nm p e).1 = false → (add_new_ticket t nm p e).2 = t) := by
  constructor
  · intro n stops st h
    unfold add_new_route at *
    by_cases hv : is_valid_new_route n stops st.existing = false
    · simp [hv]
    · simp [hv] at h
  · intro t nm p e h
    unfold add_new_ticket at h ⊢
    by_cases hd : (t.tickets.map Prod.fst).contains nm = true
    · rw [if_pos hd]
    · rw [if_neg hd] at h
      simp at h

/-- C9 witness: a duplicate route id and a duplicate ticket name, both
rejected with the state returned intact. -/
theorem C9_rejection_is_pure_witness :
    (add_new_route 1 [("A", 5)] ⟨[1], fun _ => none⟩).1 = false
    ∧ (add_new_route 1 [("A", 5)] ⟨[1], fun _ => none⟩).2 = ⟨[1], fun _ => none⟩
    ∧ (add_new_ticket (runCalls [⟨"A", 100, 10⟩]) "A" 7 3).1 = false
    ∧ (add_new_ticket (runCalls [⟨"A", 100, 10⟩]) "A" 7 3).2 = runCalls [⟨"A", 100, 10⟩] :=
  ⟨by decide, C9_rejection_is_pure.1 1 [("A", 5)] ⟨[1], fun _ => none⟩ (by decide),
    by decide, C9_rejection_is_pure.2 (runCalls [⟨"A", 100, 10⟩]) "A" 7 3 (by decide)⟩

/-- C2 (code_bug evidence): the rows allocated by
initialize_optimal_ticket_set have `row_alloc_len = MAX_TRIP_LENGTH = 927`
cells (valid indices 0..926), yet the multi-ticket loop of add_new_ticket
writes column 927 for any clamped expiration < 927 (shown at e = 5), the
single-ticket loop reads column 927 when the clamped expiration is 927, and
optimal_ticket_set reads column 927 for a query of duration 927: the claim
that every such access is within the allocated rows fails at index 927. -/
theorem C2_access_at_927_is_out_of_bounds :
    MAX_TRIP_LENGTH ∈ multi_loop_cols (clamp_expiration 5)
    ∧ MAX_TRIP_LENGTH ∈ row0_loop_cols (clamp_expiration 927)
    ∧ ¬ MAX_TRIP_LENGTH < row_alloc_len := by
  refine ⟨?_, ?_, by decide⟩
  · have : MAX_TRIP_LENGTH ∈ List.range' (5 + 1) (MAX_TRIP_LENGTH - 5) := by
      rw [List.mem_range']
      exact ⟨921, by decide, by decide⟩
    simpa [multi_loop_cols, clamp_expiration] using this
  · have : MAX_TRIP_LENGTH ∈ List.range' 1 927 := by
      rw [List.mem_range']
      exact ⟨926, by decide, by decide⟩
    simpa [row0_loop_cols, clamp_expiration] using this

/-- C4 counterexample: after registering the single ticket A (price 100,
window 10), best_combination(5) returns ["A"], whose window sum is 10, not
the queried duration 5: reconstruction ends at −5, not exactly 0, and the
windows of the returned tickets do not sum to exactly d. -/
theorem C4_counterexample :
    optimal_ticket_set (runCalls [⟨"A", 100, 10⟩]) 5 = ["A"]
    ∧ ((optimal_ticket_set (runCalls [⟨"A", 100, 10⟩]) 5).map
        (windowOfName (catalog [⟨"A", 100, 10⟩]))).sum = 10
    ∧ (10 : Nat) ≠ 5 := by
  refine ⟨by decide, ?_, by decide⟩
  have h : optimal_ticket_set (runCalls [⟨"A", 100, 10⟩]) 5 = ["A"] := by decide
  rw [h]; decide

/-- C5 counterexample: the route [("A", 0), ("B", 5)] has a fresh id, a
non-empty stop list, pairwise-distinct names and strictly increasing times,
yet is_valid_new_route rejects it, because the source initialises
`last_stop_time = 0` and rejects any first stop whose time is ≤ 0. -/
theorem C5_counterexample :
    is_valid_new_route 1 [("A", 0), ("B", 5)] [] = false
    ∧ ¬ (1 : Int) ∈ ([] : List Int)
    ∧ ([("A", 0), ("B", 5)] : List (String × Int)) ≠ []
    ∧ (([("A", 0), ("B", 5)] : List (String × Int)).map Prod.fst).Nodup
    ∧ List.Chain' (· < ·) (([("A", 0), ("B", 5)] : List (String × Int)).map Prod.snd) := by
  refine ⟨by decide, by decide, by decide, ?_, ?_⟩
  · simp
  · simp

/-- C1 counterexample: registering a single ticket priced exactly at the
INT_MAX sentinel (window 10) leaves every fare-table cell at the sentinel, so
best_combination(5) returns the empty list even though the one-element
multiset {A} has clamped windows summing to 10 ≥ 5. -/
theorem C1_counterexample :
    optimal_ticket_set (runCalls [⟨"A", 2147483647, 10⟩]) 5 = []
    ∧ validPick (catalog [⟨"A", 2147483647, 10⟩]) [0] 5
    ∧ ([0] : List Nat).length ≤ 3 := by
  refine ⟨by decide, ?_, by decide⟩
  constructor
  · intro i hi
    simp at hi
    subst hi
    decide
  · decide

/-- C8: for every trip query that passes check_trip_validity, plan_tickets
returns WaitRequired(first_wait_stop) with the counter unchanged and a result
independent of the fare-engine state whenever scan flags a wait; otherwise it
queries optimal_ticket_set at exactly the scanned duration plus one,
returning NoFareFound on an empty result and otherwise Priced(names) with
tickets_sold incremented by exactly the number of returned names. -/
theorem C8_plan_tickets_contract :
    ∀ (stops : List String) (routes : List Int) (sch : Schedule) (t : TicketsData) (sold : Nat),
      check_trip_validity stops routes sch = true →
      ((scan_trip_request stops routes sch).2.1 = true →
          ∀ t' : TicketsData,
            plan_tickets stops routes sch t' sold =
              (PlanResult.waitRequired (scan_trip_request stops routes sch).2.2, sold))
      ∧ ((scan_trip_request stops routes sch).2.1 = false →
          (optimal_ticket_set t ((scan_trip_request stops routes sch).1 + 1) = [] →
              plan_tickets stops routes sch t sold = (PlanResult.noFare, sold))
          ∧ (optimal_ticket_set t ((scan_trip_request stops routes sch).1 + 1) ≠ [] →
              plan_tickets stops routes sch t sold =
                (PlanResult.priced
                    (optimal_ticket_set t ((scan_trip_request stops routes sch).1 + 1)),
                  sold + (optimal_ticket_set t ((scan_trip_request stops routes sch).1 + 1)).length))) := by
  intro stops routes sch t sold hv
  constructor
  · intro hw t'
    simp [plan_tickets, hv, hw]
  · intro hnw
    constructor
    · intro hempty
      simp [plan_tickets, hv, hnw, hempty, ticket_set_found]
    · intro hne
      have hlen : (optimal_ticket_set t ((scan_trip_request stops routes sch).1 + 1)).length ≠ 0 := by
        simpa [List.length_eq_zero] using hne
      simp [plan_tickets, hv, hnw, ticket_set_found, hlen]

/-- C8 witness: the two-leg trip A→B→C on exampleRoutes is valid, waits
nowhere, and with an empty fare engine the planner reports NoFareFound with
the counter unchanged. -/
theorem C8_plan_tickets_contract_witness :
    check_trip_validity ["A", "B", "C"] [1, 2] exampleRoutes.schedule = true
    ∧ plan_tickets ["A", "B", "C"] [1, 2] exampleRoutes.schedule initial_ticket_data 0 =
        (PlanResult.noFare, 0) :=
  ⟨by decide,
    ((C8_plan_tickets_contract ["A", "B", "C"] [1, 2] exampleRoutes.schedule
        initial_ticket_data 0 (by decide)).2 (by decide)).1 (by decide)⟩

/-! ### Fare-engine lemmas: the single-ticket descent -/

theorem clamp_expiration_le (e : Nat) : clamp_expiration e ≤ MAX_TRIP_LENGTH := by
  unfold clamp_expiration
  split_ifs with h <;> omega

theorem descend_eq_pointwise (price : Nat) (id : Int) :
    ∀ (e : Nat) (r : Nat → Cell),
      (∀ a b, 1 ≤ a → a ≤ b → b ≤ e → (r a).1 ≤ (r b).1) →
      descend price id e r = fun j =>
        if 1 ≤ j ∧ j ≤ e ∧ price < (r j).1 then (price, id) else r j := by
  intro e
  induction e with
  | zero =>
    intro r _
    funext j
    rw [descend]
    rw [if_neg (by omega)]
  | succ i ih =>
    intro r hmono
    rw [descend]
    by_cases hc : price < (r (i + 1)).1
    · rw [if_pos hc]
      have hmono' : ∀ a b, 1 ≤ a → a ≤ b → b ≤ i →
          ((Function.update r (i + 1) (price, id)) a).1
            ≤ ((Function.update r (i + 1) (price, id)) b).1 := by
        intro a b ha hab hb
        rw [Function.update_noteq (by omega), Function.update_noteq (by omega)]
        exact hmono a b ha hab (by omega)
      rw [ih _ hmono']
      funext j
      by_cases hj : j = i + 1
      · subst hj
        rw [if_neg (by omega), if_pos ⟨by omega, le_refl _, hc⟩]
        rw [Function.update_same]
      · rw [Function.update_noteq hj]
        by_cases hcond : 1 ≤ j ∧ j ≤ i ∧ price < (r j).1
        · rw [if_pos hcond, if_pos ⟨hcond.1, by omega, hcond.2.2⟩]
        · rw [if_neg hcond, if_neg (by
            rintro ⟨h1, h2, h3⟩
            exact hcond ⟨h1, by omega, h3⟩)]
    · rw [if_neg hc]
      funext j
      by_cases hcond : 1 ≤ j ∧ j ≤ i + 1 ∧ price < (r j).1
      · exfalso
        have := hmono j (i + 1) hcond.1 hcond.2.1 (le_refl _)
        omega
      · rw [if_neg hcond]

theorem descendFull_eq_pointwise (price : Nat) (id : Int) :
    ∀ (e : Nat) (r : Nat → Cell),
      descendFull price id e r = fun j =>
        if 1 ≤ j ∧ j ≤ e ∧ price < (r j).1 then (price, id) else r j := by
  intro e
  induction e with
  | zero =>
    intro r
    funext j
    rw [descendFull]
    rw [if_neg (by omega)]
  | succ i ih =>
    intro r
    rw [descendFull]
    by_cases hc : price < (r (i + 1)).1
    · rw [if_pos hc, ih]
      funext j
      by_cases hj : j = i + 1
      · subst hj
        rw [if_neg (by rintro ⟨_, hb, _⟩; omega)]
        rw [if_pos ⟨by omega, le_refl _, hc⟩]
        rw [Function.update_same]
      · rw [Function.update_noteq hj]
        by_cases hcond : 1 ≤ j ∧ j ≤ i ∧ price < (r j).1
        · rw [if_pos hcond, if_pos ⟨hcond.1, by omega, hcond.2.2⟩]
        · rw [if_neg hcond, if_neg (by
            rintro ⟨h1, h2, h3⟩
            exact hcond ⟨h1, by omega, h3⟩)]
    · rw [if_neg hc, ih]
      funext j
      by_cases hcond : 1 ≤ j ∧ j ≤ i ∧ price < (r j).1
      · rw [if_pos hcond, if_pos ⟨hcond.1, by omega, hcond.2.2⟩]
      · by_cases hj : j = i + 1
        · subst hj
          rw [if_neg hcond, if_neg (by
            rintro ⟨_, _, h3⟩
            exact hc h3)]
        · rw [if_neg hcond, if_neg (by
            rintro ⟨h1, h2, h3⟩
            exact hcond ⟨h1, by omega, h3⟩)]

theorem descend_fst_le (price : Nat) (id : Int) (e : Nat) (r : Nat → Cell)
    (hmono : ∀ a b, 1 ≤ a → a ≤ b → b ≤ e → (r a).1 ≤ (r b).1) (j : Nat) :
    (descend price id e r j).1 ≤ (r j).1 := by
  rw [descend_eq_pointwise price id e r hmono]
  simp only
  split_ifs with hcond
  · exact le_of_lt hcond.2.2
  · exact le_refl _

/-! ### Fare-engine lemmas: the multi-ticket row update -/

theorem updRow_fst_le (lower cur : Nat → Cell) (price : Nat) (id : Int) (e : Nat)
    (j : Nat) : (updRow lower cur price id e j).1 ≤ (cur j).1 := by
  simp only [updRow]
  split_ifs with h1 h2
  · exact le_of_lt h2
  · exact le_refl _
  · exact le_refl _

theorem updRow_in_range_le (lower cur : Nat → Cell) (price : Nat) (id : Int) (e : Nat)
    (j : Nat) (h1 : e + 1 ≤ j) (h2 : j ≤ MAX_TRIP_LENGTH) :
    (updRow lower cur price id e j).1 ≤ min INT_MAX (price + (lower (j - e)).1) := by
  simp only [updRow, if_pos (And.intro h1 h2)]
  split_ifs with h3
  · exact le_refl _
  · exact not_lt.1 h3

theorem updRow_cases (lower cur : Nat → Cell) (price : Nat) (id : Int) (e : Nat)
    (j : Nat) :
    updRow lower cur price id e j = cur j
    ∨ (e + 1 ≤ j ∧ j ≤ MAX_TRIP_LENGTH
        ∧ updRow lower cur price id e j = (min INT_MAX (price + (lower (j - e)).1), id)
        ∧ min INT_MAX (price + (lower (j - e)).1) < (cur j).1) := by
  simp only [updRow]
  split_ifs with h1 h2
  · exact Or.inr ⟨h1.1, h1.2, rfl, h2⟩
  · exact Or.inl rfl
  · exact Or.inl rfl

/-! ### Fare-engine lemmas: saturating addition -/

theorem sat_le_sat {x y : Nat} (h : x ≤ y) : min INT_MAX x ≤ min INT_MAX y :=
  min_le_min (le_refl _) h

theorem sat_absorb (p q : Nat) :
    min INT_MAX (p + min INT_MAX q) = min INT_MAX (p + q) := by
  rcases le_total q INT_MAX with h | h
  · rw [Nat.min_eq_right h]
  · rw [Nat.min_eq_left h, Nat.min_eq_left (by omega), Nat.min_eq_left (by omega)]

/-! ### Fare-engine lemmas: the row-0 specification fold -/

theorem row0Spec_append (d : Nat) (c : Call) :
    ∀ (cs : List Call) (i : Nat) (acc : Cell),
      row0Spec d i acc (cs ++ [c]) =
        (if d ≤ clamp_expiration c.expiration ∧ c.price < (row0Spec d i acc cs).1
         then (c.price, ((i + cs.length : Nat) : Int)) else row0Spec d i acc cs) := by
  intro cs
  induction cs with
  | nil =>
    intro i acc
    simp only [List.nil_append, List.length_nil, Nat.add_zero]
    rw [row0Spec, row0Spec, row0Spec]
  | cons c0 cs' ih =>
    intro i acc
    rw [List.cons_append, row0Spec, row0Spec, ih]
    have hlen : i + 1 + cs'.length = i + (c0 :: cs').length := by
      simp [List.length_cons]
      omega
    rw [hlen]

theorem row0Spec_fst (d : Nat) :
    ∀ (cs : List Call) (i : Nat) (acc : Cell),
      (row0Spec d i acc cs).1 =
        cs.foldl (fun a c =>
          if d ≤ clamp_expiration c.expiration then min a c.price else a) acc.1 := by
  intro cs
  induction cs with
  | nil => intro i acc; rfl
  | cons c0 cs' ih =>
    intro i acc
    rw [row0Spec, List.foldl_cons, ih]
    by_cases he : d ≤ clamp_expiration c0.expiration
    · by_cases hp : c0.price < acc.1
      · rw [if_pos ⟨he, hp⟩, if_pos he, Nat.min_eq_right (le_of_lt hp)]
      · rw [if_neg (by tauto), if_pos he, Nat.min_eq_left (not_lt.1 hp)]
    · rw [if_neg (by tauto), if_neg he]

theorem row0Spec_le_acc :
    ∀ (cs : List Call) (d i : Nat) (acc : Cell), (row0Spec d i acc cs).1 ≤ acc.1 := by
  intro cs
  induction cs with
  | nil => intro d i acc; exact le_refl _
  | cons c0 cs' ih =>
    intro d i acc
    rw [row0Spec]
    refine le_trans (ih d (i + 1) _) ?_
    split_ifs with h
    · exact le_of_lt h.2
    · exact le_refl _

theorem row0Spec_le_mem (d : Nat) :
    ∀ (cs : List Call) (i : Nat) (acc : Cell) (j : Nat), j < cs.length →
      d ≤ clamp_expiration ((cs.getD j noCall).expiration) →
      (row0Spec d i acc cs).1 ≤ (cs.getD j noCall).price := by
  intro cs
  induction cs with
  | nil => intro i acc j hj _; simp at hj
  | cons c0 cs' ih =>
    intro i acc j hj hw
    cases j with
    | zero =>
      rw [row0Spec]
      simp only [List.getD_cons_zero] at hw ⊢
      by_cases hp : c0.price < acc.1
      · rw [if_pos ⟨hw, hp⟩]
        exact row0Spec_le_acc cs' d (i + 1) _
      · refine le_trans (row0Spec_le_acc cs' d (i + 1) _) ?_
        rw [if_neg (by tauto)]
        exact not_lt.1 hp
    | succ k =>
      rw [row0Spec]
      simp only [List.getD_cons_succ] at hw ⊢
      exact ih (i + 1) _ k (by simpa using hj) hw

theorem row0Spec_realize (d : Nat) :
    ∀ (cs : List Call) (i : Nat) (acc : Cell),
      row0Spec d i acc cs = acc ∨
        ∃ j, j < cs.length
          ∧ row0Spec d i acc cs = ((cs.getD j noCall).price, ((i + j : Nat) : Int))
          ∧ d ≤ clamp_expiration ((cs.getD j noCall).expiration) := by
  intro cs
  induction cs with
  | nil => intro i acc; exact Or.inl rfl
  | cons c0 cs' ih =>
    intro i acc
    rw [row0Spec]
    by_cases hcond : d ≤ clamp_expiration c0.expiration ∧ c0.price < acc.1
    · rw [if_pos hcond]
      rcases ih (i + 1) (c0.price, (i : Int)) with heq | ⟨j, hj, heq, hw⟩
      · refine Or.inr ⟨0, by simp, ?_, by simpa using hcond.1⟩
        simpa using heq
      · refine Or.inr ⟨j + 1, by simpa using hj, ?_, by simpa using hw⟩
        rw [heq]
        simp only [List.getD_cons_succ]
        congr 1
        omega
    · rw [if_neg hcond]
      rcases ih (i + 1) acc with heq | ⟨j, hj, heq, hw⟩
      · exact Or.inl heq
      · refine Or.inr ⟨j + 1, by simpa using hj, ?_, by simpa using hw⟩
        rw [heq]
        simp only [List.getD_cons_succ]
        congr 1
        omega

theorem row0Spec_mono (d d' : Nat) (hdd : d ≤ d') :
    ∀ (cs : List Call) (i : Nat) (acc acc' : Cell), acc.1 ≤ acc'.1 →
      (row0Spec d i acc cs).1 ≤ (row0Spec d' i acc' cs).1 := by
  intro cs
  induction cs with
  | nil => intro i acc acc' h; exact h
  | cons c0 cs' ih =>
    intro i acc acc' h
    rw [row0Spec, row0Spec]
    apply ih
    by_cases hc' : d' ≤ clamp_expiration c0.expiration ∧ c0.price < acc'.1
    · rw [if_pos hc']
      split_ifs with hc
      · exact le_refl _
      · have hde : d ≤ clamp_expiration c0.expiration := le_trans hdd hc'.1
        have hnl : ¬ c0.price < acc.1 := fun hlt => hc ⟨hde, hlt⟩
        exact not_lt.1 hnl
    · rw [if_neg hc']
      split_ifs with hc
      · exact le_trans (le_of_lt hc.2) h
      · exact h

/-! ### Fare-engine lemmas: the invariant is established and preserved -/

theorem contains_eq_false_iff {α} [BEq α] [LawfulBEq α] (l : List α) (a : α) :
    l.contains a = false ↔ ¬ a ∈ l := by
  rw [← Bool.not_eq_true]
  exact not_congr List.elem_iff

theorem getD_append_lt (cat : List Call) (c : Call) (i : Nat) (hi : i < cat.length) :
    (cat ++ [c]).getD i noCall = cat.getD i noCall :=
  List.getD_append _ _ _ _ hi

theorem getD_append_self (cat : List Call) (c : Call) :
    (cat ++ [c]).getD cat.length noCall = c := by
  rw [List.getD_append_right cat [c] noCall cat.length (le_refl _)]
  simp

theorem TableInv_init : TableInv [] initial_ticket_data := by
  refine ⟨rfl, by simp, rfl, ?_, ?_, ?_, ?_, ?_, ?_⟩
  · intro d h1 _
    rw [row0Spec]
    show (if d = 0 then ((0, -1) : Cell) else (INT_MAX, -1)) = (INT_MAX, -1)
    rw [if_neg (by omega)]
  · intro d
    refine ⟨?_, ?_, ?_⟩ <;>
      · show (if d = 0 then ((0, -1) : Cell) else (INT_MAX, -1)).1 ≤ INT_MAX
        split_ifs <;> simp [INT_MAX]
  · intro d h1 _ hfin
    exfalso
    revert hfin
    show ¬ (if d = 0 then ((0, -1) : Cell) else (INT_MAX, -1)).1 < INT_MAX
    rw [if_neg (by omega)]
    omega
  · intro d h1 _ hfin
    exfalso
    revert hfin
    show ¬ (if d = 0 then ((0, -1) : Cell) else (INT_MAX, -1)).1 < INT_MAX
    rw [if_neg (by omega)]
    omega
  · intro d _ _ a _ ha
    simp at ha
  · intro d _ _ a _ _ ha
    simp at ha

theorem TableInv_insert (cat : List Call) (t : TicketsData) (hI : TableInv cat t)
    (c : Call) (hfresh : ¬ c.name ∈ cat.map Call.name) :
    TableInv (cat ++ [c]) (add_new_ticket t c.name c.price c.expiration).2 := by
  obtain ⟨hteq, hnod, hrz, hrs, hbd, hp1, hp2, hpb, htb⟩ := hI
  have hnames : t.tickets.map Prod.fst = cat.map Call.name := by
    rw [hteq]
    simp [List.map_map, Function.comp_def]
  have hfreshb : (t.tickets.map Prod.fst).contains c.name = false := by
    rw [hnames]
    exact (contains_eq_false_iff _ _).2 hfresh
  have hstate : (add_new_ticket t c.name c.price c.expiration).2 =
      ⟨t.tickets ++ [(c.name, clamp_expiration c.expiration)],
        descend c.price (t.tickets.length : Int) (clamp_expiration c.expiration) t.row0,
        updRow (descend c.price (t.tickets.length : Int) (clamp_expiration c.expiration) t.row0)
          t.row1 c.price (t.tickets.length : Int) (clamp_expiration c.expiration),
        updRow
          (updRow (descend c.price (t.tickets.length : Int) (clamp_expiration c.expiration) t.row0)
            t.row1 c.price (t.tickets.length : Int) (clamp_expiration c.expiration))
          t.row2 c.price (t.tickets.length : Int) (clamp_expiration c.expiration)⟩ := by
    unfold add_new_ticket
    rw [hfreshb]
    rfl
  rw [hstate]
  set e := clamp_expiration c.expiration with he
  set r0 := descend c.price (t.tickets.length : Int) e t.row0 with hr0def
  set r1 := updRow r0 t.row1 c.price (t.tickets.length : Int) e with hr1def
  set r2 := updRow r1 t.row2 c.price (t.tickets.length : Int) e with hr2def
  have hlen : t.tickets.length = cat.length := by
    rw [hteq, List.length_map]
  have he927 : e ≤ MAX_TRIP_LENGTH := clamp_expiration_le _
  have hmono : ∀ a b, 1 ≤ a → a ≤ b → b ≤ e → (t.row0 a).1 ≤ (t.row0 b).1 := by
    intro a b ha hab hb
    rw [hrs a ha (by omega), hrs b (by omega) (by omega)]
    exact row0Spec_mono a b hab cat 0 _ _ (le_refl _)
  have hr0eq : r0 = fun j =>
      if 1 ≤ j ∧ j ≤ e ∧ c.price < (t.row0 j).1
      then (c.price, (t.tickets.length : Int)) else t.row0 j :=
    descend_eq_pointwise _ _ _ _ hmono
  have hr0le : ∀ j, (r0 j).1 ≤ (t.row0 j).1 := fun j => descend_fst_le _ _ _ _ hmono j
  have hr1le : ∀ j, (r1 j).1 ≤ (t.row1 j).1 := fun j => updRow_fst_le _ _ _ _ _ j
  have hr2le : ∀ j, (r2 j).1 ≤ (t.row2 j).1 := fun j => updRow_fst_le _ _ _ _ _ j
  have hlenapp : (cat ++ [c]).length = cat.length + 1 := by simp
  have hrow0s : ∀ d, 1 ≤ d → d ≤ MAX_TRIP_LENGTH →
      r0 d = row0Spec d 0 (INT_MAX, -1) (cat ++ [c]) := by
    intro d h1 h2
    rw [row0Spec_append, ← hrs d h1 h2, hr0eq]
    simp only
    by_cases hcond : d ≤ clamp_expiration c.expiration ∧ c.price < (t.row0 d).1
    · rw [if_pos ⟨h1, hcond.1, hcond.2⟩, if_pos hcond]
      rw [hlen]
      simp
    · rw [if_neg (by rintro ⟨_, hA, hB⟩; exact hcond ⟨hA, hB⟩), if_neg hcond]
  have hbd' : ∀ d, (r0 d).1 ≤ INT_MAX ∧ (r1 d).1 ≤ INT_MAX ∧ (r2 d).1 ≤ INT_MAX := by
    intro d
    exact ⟨le_trans (hr0le d) (hbd d).1, le_trans (hr1le d) (hbd d).2.1,
      le_trans (hr2le d) (hbd d).2.2⟩
  -- the new pair bound, proved first because the triple bound uses it
  have hpairn : ∀ d, 1 ≤ d → d ≤ MAX_TRIP_LENGTH → ∀ a, a < cat.length + 1 →
      d ≤ clamp_expiration (((cat ++ [c]).getD a noCall).expiration) + e →
      min (r0 d).1 (r1 d).1
        ≤ min INT_MAX (((cat ++ [c]).getD a noCall).price + c.price) := by
    intro d h1 h2 a ha hcov
    by_cases hde : d ≤ e
    · have hr0c : (r0 d).1 ≤ c.price := by
        rw [hrow0s d h1 h2]
        have := row0Spec_le_mem d (cat ++ [c]) 0 (INT_MAX, -1) cat.length
          (by omega) (by rw [getD_append_self]; exact hde)
        rwa [getD_append_self] at this
      by_cases hbig : ((cat ++ [c]).getD a noCall).price + c.price < INT_MAX
      · rw [Nat.min_eq_right (le_of_lt hbig)]
        exact le_trans (min_le_left _ _) (le_trans hr0c (Nat.le_add_left _ _))
      · rw [Nat.min_eq_left (not_lt.1 hbig)]
        exact le_trans (min_le_left _ _) (hbd' d).1
    · have hin : e + 1 ≤ d := by omega
      have hle1 : (r1 d).1 ≤ min INT_MAX (c.price + (r0 (d - e)).1) :=
        updRow_in_range_le _ _ _ _ _ _ hin h2
      have hr0a : (r0 (d - e)).1 ≤ ((cat ++ [c]).getD a noCall).price := by
        rw [hrow0s (d - e) (by omega) (by omega)]
        exact row0Spec_le_mem (d - e) (cat ++ [c]) 0 (INT_MAX, -1) a
          (by omega) (by omega)
      refine le_trans (min_le_right _ _) (le_trans hle1 ?_)
      rw [Nat.add_comm ((cat ++ [c]).getD a noCall).price c.price]
      exact sat_le_sat (Nat.add_le_add_left hr0a _)
  have hpb' : ∀ d, 1 ≤ d → d ≤ MAX_TRIP_LENGTH →
      ∀ a b, a < (cat ++ [c]).length → b < (cat ++ [c]).length →
      d ≤ clamp_expiration (((cat ++ [c]).getD a noCall).expiration)
          + clamp_expiration (((cat ++ [c]).getD b noCall).expiration) →
      min (r0 d).1 (r1 d).1
        ≤ min INT_MAX
            (((cat ++ [c]).getD a noCall).price + ((cat ++ [c]).getD b noCall).price) := by
    intro d h1 h2 a b ha hb hcov
    rw [hlenapp] at ha hb
    by_cases hbn : b = cat.length
    · subst hbn
      rw [getD_append_self] at hcov ⊢
      exact hpairn d h1 h2 a ha hcov
    · have hb' : b < cat.length := by omega
      by_cases han : a = cat.length
      · subst han
        rw [getD_append_self] at hcov ⊢
        have := hpairn d h1 h2 b (by omega) (by omega)
        rw [Nat.add_comm c.price ((cat ++ [c]).getD b noCall).price]
        exact this
      · have ha' : a < cat.length := by omega
        rw [getD_append_lt cat c a ha', getD_append_lt cat c b hb'] at hcov ⊢
        exact le_trans (min_le_min (hr0le d) (hr1le d)) (hpb d h1 h2 a b ha' hb' hcov)
  have hteq' : t.tickets ++ [(c.name, e)] =
      (cat ++ [c]).map (fun c => (c.name, clamp_expiration c.expiration)) := by
    rw [hteq, he]
    simp
  have hnod' : ((cat ++ [c]).map Call.name).Nodup := by
    simp only [List.map_append, List.map_cons, List.map_nil]
    rw [List.nodup_append]
    exact ⟨hnod, List.nodup_singleton _, by simpa using hfresh⟩
  have hrz' : r0 0 = (0, -1) := by
    rw [hr0eq]
    show (if 1 ≤ 0 ∧ 0 ≤ e ∧ c.price < (t.row0 0).1
        then ((c.price, (t.tickets.length : Int)) : Cell) else t.row0 0) = (0, -1)
    rw [if_neg (by omega)]
    exact hrz
  have hprov1' : ∀ d, 1 ≤ d → d ≤ MAX_TRIP_LENGTH → (r1 d).1 < INT_MAX →
      ∃ i, i < (cat ++ [c]).length ∧ (r1 d).2 = (i : Int)
        ∧ clamp_expiration (((cat ++ [c]).getD i noCall).expiration) < d
        ∧ (r0 (d - clamp_expiration (((cat ++ [c]).getD i noCall).expiration))).1 < INT_MAX
        ∧ ((cat ++ [c]).getD i noCall).price
            + (r0 (d - clamp_expiration (((cat ++ [c]).getD i noCall).expiration))).1
          ≤ (r1 d).1 := by
    intro d h1 h2 hfin
    rcases updRow_cases r0 t.row1 c.price (t.tickets.length : Int) e d with hcase |
      ⟨hin1, hin2, heq, _⟩
    · have hval0 : r1 d = t.row1 d := by
        rw [hr1def]
        exact hcase
      rw [hval0] at hfin ⊢
      obtain ⟨i, hi, hid, hwlt, hfin0, hsum⟩ := hp1 d h1 h2 hfin
      refine ⟨i, by rw [hlenapp]; omega, hid, ?_, ?_, ?_⟩
      · rw [getD_append_lt cat c i hi]
        exact hwlt
      · rw [getD_append_lt cat c i hi]
        exact lt_of_le_of_lt (hr0le _) hfin0
      · rw [getD_append_lt cat c i hi]
        exact le_trans (Nat.add_le_add_left (hr0le _) _) hsum
    · have hval : (r1 d).1 = min INT_MAX (c.price + (r0 (d - e)).1) := by
        rw [hr1def, heq]
      have hid : (r1 d).2 = (t.tickets.length : Int) := by
        rw [hr1def, heq]
      rw [hval] at hfin
      have hsum : c.price + (r0 (d - e)).1 < INT_MAX := by
        by_contra hcon
        rw [Nat.min_eq_left (by omega)] at hfin
        omega
      refine ⟨cat.length, by rw [hlenapp]; omega, ?_, ?_, ?_, ?_⟩
      · rw [hid, hlen]
      · rw [getD_append_self, ← he]
        omega
      · rw [getD_append_self, ← he]
        omega
      · rw [getD_append_self, ← he, hval, Nat.min_eq_right (le_of_lt hsum)]
  have hprov2' : ∀ d, 1 ≤ d → d ≤ MAX_TRIP_LENGTH → (r2 d).1 < INT_MAX →
      ∃ i, i < (cat ++ [c]).length ∧ (r2 d).2 = (i : Int)
        ∧ clamp_expiration (((cat ++ [c]).getD i noCall).expiration) < d
        ∧ (r1 (d - clamp_expiration (((cat ++ [c]).getD i noCall).expiration))).1 < INT_MAX
        ∧ ((cat ++ [c]).getD i noCall).price
            + (r1 (d - clamp_expiration (((cat ++ [c]).getD i noCall).expiration))).1
          ≤ (r2 d).1 := by
    intro d h1 h2 hfin
    rcases updRow_cases r1 t.row2 c.price (t.tickets.length : Int) e d with hcase |
      ⟨hin1, hin2, heq, _⟩
    · have hval0 : r2 d = t.row2 d := by
        rw [hr2def]
        exact hcase
      rw [hval0] at hfin ⊢
      obtain ⟨i, hi, hid, hwlt, hfin0, hsum⟩ := hp2 d h1 h2 hfin
      refine ⟨i, by rw [hlenapp]; omega, hid, ?_, ?_, ?_⟩
      · rw [getD_append_lt cat c i hi]
        exact hwlt
      · rw [getD_append_lt cat c i hi]
        exact lt_of_le_of_lt (hr1le _) hfin0
      · rw [getD_append_lt cat c i hi]
        exact le_trans (Nat.add_le_add_left (hr1le _) _) hsum
    · have hval : (r2 d).1 = min INT_MAX (c.price + (r1 (d - e)).1) := by
        rw [hr2def, heq]
      have hid : (r2 d).2 = (t.tickets.length : Int) := by
        rw [hr2def, heq]
      rw [hval] at hfin
      have hsum : c.price + (r1 (d - e)).1 < INT_MAX := by
        by_contra hcon
        rw [Nat.min_eq_left (by omega)] at hfin
        omega
      refine ⟨cat.length, by rw [hlenapp]; omega, ?_, ?_, ?_, ?_⟩
      · rw [hid, hlen]
      · rw [getD_append_self, ← he]
        omega
      · rw [getD_append_self, ← he]
        omega
      · rw [getD_append_self, ← he, hval, Nat.min_eq_right (le_of_lt hsum)]
  have htriplen : ∀ d, 1 ≤ d → d ≤ MAX_TRIP_LENGTH →
        ∀ a b, a < cat.length + 1 → b < cat.length + 1 →
        d ≤ clamp_expiration (((cat ++ [c]).getD a noCall).expiration)
            + clamp_expiration (((cat ++ [c]).getD b noCall).expiration) + e →
        min (r0 d).1 (min (r1 d).1 (r2 d).1)
          ≤ min INT_MAX
              (((cat ++ [c]).getD a noCall).price
                + ((cat ++ [c]).getD b noCall).price + c.price) := by
      intro d h1 h2 a b ha hb hcov
      by_cases hde : d ≤ e
      · have hr0c : (r0 d).1 ≤ c.price := by
          rw [hrow0s d h1 h2]
          have := row0Spec_le_mem d (cat ++ [c]) 0 (INT_MAX, -1) cat.length
            (by omega) (by rw [getD_append_self]; exact hde)
          rwa [getD_append_self] at this
        by_cases hbig : ((cat ++ [c]).getD a noCall).price
            + ((cat ++ [c]).getD b noCall).price + c.price < INT_MAX
        · rw [Nat.min_eq_right (le_of_lt hbig)]
          exact le_trans (min_le_left _ _) (le_trans hr0c (Nat.le_add_left _ _))
        · rw [Nat.min_eq_left (not_lt.1 hbig)]
          exact le_trans (min_le_left _ _) (hbd' d).1
      · have hin : e + 1 ≤ d := by omega
        have hd'1 : 1 ≤ d - e := by omega
        have hd'2 : d - e ≤ MAX_TRIP_LENGTH := by omega
        have hwab : d - e ≤ clamp_expiration (((cat ++ [c]).getD a noCall).expiration)
            + clamp_expiration (((cat ++ [c]).getD b noCall).expiration) := by omega
        have hpair := hpb' (d - e) hd'1 hd'2 a b (by omega) (by omega) hwab
        have hle2 : (r2 d).1 ≤ min INT_MAX (c.price + (r1 (d - e)).1) :=
          updRow_in_range_le _ _ _ _ _ _ hin h2
        rcases min_le_iff.1 hpair with hc0 | hc1
        · by_cases hfin : (r0 (d - e)).1 < INT_MAX
          · have hspec := hrow0s (d - e) hd'1 hd'2
            rcases row0Spec_realize (d - e) (cat ++ [c]) 0 (INT_MAX, -1) with
              heqacc | ⟨u, hu, hueq, huw⟩
            · rw [hspec, heqacc] at hfin
              exact absurd hfin (lt_irrefl _)
            · have hpu : (r0 (d - e)).1 = ((cat ++ [c]).getD u noCall).price := by
                rw [hspec, hueq]
              have hucov : d ≤
                  clamp_expiration (((cat ++ [c]).getD u noCall).expiration) + e := by
                omega
              have hu' : u < cat.length + 1 := by
                rw [hlenapp] at hu
                exact hu
              have hpairu := hpairn d h1 h2 u hu' hucov
              have hpule : ((cat ++ [c]).getD u noCall).price
                  ≤ ((cat ++ [c]).getD a noCall).price
                    + ((cat ++ [c]).getD b noCall).price := by
                rw [← hpu]
                exact le_trans hc0 (min_le_right _ _)
              refine le_trans (le_min (min_le_left _ _)
                (le_trans (min_le_right _ _) (min_le_left _ _))) ?_
              refine le_trans hpairu ?_
              exact sat_le_sat (Nat.add_le_add_right hpule _)
          · have hM2 : INT_MAX ≤ ((cat ++ [c]).getD a noCall).price
                + ((cat ++ [c]).getD b noCall).price :=
              le_trans (le_trans (not_lt.1 hfin) hc0) (min_le_right _ _)
            have hgoal : min INT_MAX (((cat ++ [c]).getD a noCall).price
                + ((cat ++ [c]).getD b noCall).price + c.price) = INT_MAX :=
              Nat.min_eq_left (by omega)
            rw [hgoal]
            exact le_trans (min_le_left _ _) (hbd' d).1
        · exact le_trans (min_le_right _ _)
            (le_trans (min_le_right _ _)
              (le_trans hle2 (by
                have : c.price + (r1 (d - e)).1
                    ≤ c.price + min INT_MAX (((cat ++ [c]).getD a noCall).price
                        + ((cat ++ [c]).getD b noCall).price) :=
                  Nat.add_le_add_left hc1 _
                refine le_trans (sat_le_sat this) ?_
                rw [sat_absorb]
                rw [Nat.add_comm c.price _])))
  have htb' : ∀ d, 1 ≤ d → d ≤ MAX_TRIP_LENGTH →
      ∀ a b c2, a < (cat ++ [c]).length → b < (cat ++ [c]).length →
        c2 < (cat ++ [c]).length →
      d ≤ clamp_expiration (((cat ++ [c]).getD a noCall).expiration)
          + clamp_expiration (((cat ++ [c]).getD b noCall).expiration)
          + clamp_expiration (((cat ++ [c]).getD c2 noCall).expiration) →
      min (r0 d).1 (min (r1 d).1 (r2 d).1)
        ≤ min INT_MAX
            (((cat ++ [c]).getD a noCall).price + ((cat ++ [c]).getD b noCall).price
              + ((cat ++ [c]).getD c2 noCall).price) := by
    intro d h1 h2 a b c2 ha hb hc2 hcov
    rw [hlenapp] at ha hb hc2
    by_cases hcn : c2 = cat.length
    · subst hcn
      rw [getD_append_self] at hcov ⊢
      exact htriplen d h1 h2 a b ha hb hcov
    · have hc2' : c2 < cat.length := by omega
      by_cases hbn : b = cat.length
      · subst hbn
        rw [getD_append_self] at hcov ⊢
        have := htriplen d h1 h2 a c2 ha (by omega) (by omega)
        have harith : ((cat ++ [c]).getD a noCall).price
            + ((cat ++ [c]).getD c2 noCall).price + c.price
            = ((cat ++ [c]).getD a noCall).price + c.price
              + ((cat ++ [c]).getD c2 noCall).price := by omega
        rw [harith] at this
        exact this
      · have hb' : b < cat.length := by omega
        by_cases han : a = cat.length
        · subst han
          rw [getD_append_self] at hcov ⊢
          have := htriplen d h1 h2 b c2 (by omega) (by omega) (by omega)
          have harith : ((cat ++ [c]).getD b noCall).price
              + ((cat ++ [c]).getD c2 noCall).price + c.price
              = c.price + ((cat ++ [c]).getD b noCall).price
                + ((cat ++ [c]).getD c2 noCall).price := by omega
          rw [harith] at this
          exact this
        · have ha' : a < cat.length := by omega
          rw [getD_append_lt cat c a ha', getD_append_lt cat c b hb',
            getD_append_lt cat c c2 hc2'] at hcov ⊢
          refine le_trans (min_le_min (hr0le d) (min_le_min (hr1le d) (hr2le d))) ?_
          exact htb d h1 h2 a b c2 ha' hb' hc2' hcov
  exact ⟨hteq', hnod', hrz', hrow0s, hbd', hprov1', hprov2', hpb', htb'⟩

theorem TableInv_processCalls :
    ∀ (cs cat : List Call) (t : TicketsData), TableInv cat t →
      TableInv (catalogFrom cat cs) (processCalls t cs) := by
  intro cs
  induction cs with
  | nil => intro cat t h; exact h
  | cons c cs' ih =>
    intro cat t h
    rw [processCalls, catalogFrom]
    have hnames : t.tickets.map Prod.fst = cat.map Call.name := by
      rw [h.tickets_eq]
      simp [List.map_map, Function.comp_def]
    by_cases hdup : (cat.map Call.name).contains c.name = true
    · rw [if_pos hdup]
      have hstep : (add_new_ticket t c.name c.price c.expiration).2 = t := by
        unfold add_new_ticket
        rw [hnames, if_pos hdup]
      rw [hstep]
      exact ih cat t h
    · rw [if_neg hdup]
      exact ih (cat ++ [c]) _
        (TableInv_insert cat t h c (fun hmem => hdup (List.elem_iff.2 hmem)))

theorem TableInv_runCalls (cs : List Call) : TableInv (catalog cs) (runCalls cs) :=
  TableInv_processCalls cs [] initial_ticket_data TableInv_init

theorem add_new_ticket_full_eq (cat : List Call) (t : TicketsData) (hI : TableInv cat t)
    (c : Call) :
    add_new_ticket_full t c.name c.price c.expiration =
      add_new_ticket t c.name c.price c.expiration := by
  by_cases hdup : (t.tickets.map Prod.fst).contains c.name = true
  · unfold add_new_ticket_full add_new_ticket
    rw [if_pos hdup, if_pos hdup]
  · have hmono : ∀ a b, 1 ≤ a → a ≤ b → b ≤ clamp_expiration c.expiration →
        (t.row0 a).1 ≤ (t.row0 b).1 := by
      intro a b ha hab hb
      have hb927 : b ≤ MAX_TRIP_LENGTH := le_trans hb (clamp_expiration_le _)
      rw [hI.row0_spec a ha (by omega), hI.row0_spec b (by omega) hb927]
      exact row0Spec_mono a b hab cat 0 _ _ (le_refl _)
    simp only [add_new_ticket_full, add_new_ticket, if_neg hdup]
    rw [descendFull_eq_pointwise c.price (t.tickets.length : Int)
        (clamp_expiration c.expiration) t.row0,
      descend_eq_pointwise c.price (t.tickets.length : Int)
        (clamp_expiration c.expiration) t.row0 hmono]

theorem processCallsFull_eq :
    ∀ (cs cat : List Call) (t : TicketsData), TableInv cat t →
      processCallsFull t cs = processCalls t cs := by
  intro cs
  induction cs with
  | nil => intro cat t _; rfl
  | cons c cs' ih =>
    intro cat t h
    rw [processCallsFull, processCalls, add_new_ticket_full_eq cat t h c]
    have hnames : t.tickets.map Prod.fst = cat.map Call.name := by
      rw [h.tickets_eq]
      simp [List.map_map, Function.comp_def]
    by_cases hdup : (cat.map Call.name).contains c.name = true
    · have hstep : (add_new_ticket t c.name c.price c.expiration).2 = t := by
        unfold add_new_ticket
        rw [hnames, if_pos hdup]
      rw [hstep]
      exact ih cat t h
    · exact ih (cat ++ [c]) _
        (TableInv_insert cat t h c (fun hmem => hdup (List.elem_iff.2 hmem)))

/-- C3: replacing the early-stopping single-ticket descent by a full descent
that checks every duration from the clamped expiration down to 1 yields
exactly the same state after every sequence of register_ticket calls, and
row 0 at each duration d always holds the minimum price over registered
tickets whose clamped window is ≥ d (the INT_MAX sentinel if none). -/
theorem C3_early_break_equivalence :
    ∀ cs : List Call,
      runCallsFull cs = runCalls cs
      ∧ ∀ d, 1 ≤ d → d ≤ MAX_TRIP_LENGTH →
          ((runCalls cs).row0 d).1 = minPriceOver (catalog cs) d := by
  intro cs
  constructor
  · exact processCallsFull_eq cs [] initial_ticket_data TableInv_init
  · intro d h1 h2
    rw [(TableInv_runCalls cs).row0_spec d h1 h2, row0Spec_fst]
    rfl

/-- C3 witness: with one registered ticket, the full-descent state agrees
with the real add_new_ticket state and row 0 at 5 holds the catalog
minimum. -/
theorem C3_early_break_equivalence_witness :
    runCallsFull [⟨"A", 100, 10⟩] = runCalls [⟨"A", 100, 10⟩]
    ∧ ((runCalls [⟨"A", 100, 10⟩]).row0 5).1 = minPriceOver (catalog [⟨"A", 100, 10⟩]) 5 :=
  ⟨(C3_early_break_equivalence [⟨"A", 100, 10⟩]).1,
    (C3_early_break_equivalence [⟨"A", 100, 10⟩]).2 5 (by decide) (by decide)⟩

/-- C10: after every sequence of register_ticket calls, row 0 of the fare
table is monotonically non-decreasing in the duration, over the whole row
(durations up to MAX_TRIP_LENGTH); this is the invariant that makes the
early break in the single-ticket descent sound. -/
theorem C10_row0_monotone :
    ∀ (cs : List Call) (d d' : Nat), d ≤ d' → d' ≤ MAX_TRIP_LENGTH →
      ((runCalls cs).row0 d).1 ≤ ((runCalls cs).row0 d').1 := by
  intro cs d d' hdd hd'
  have hI := TableInv_runCalls cs
  rcases Nat.eq_zero_or_pos d with rfl | hd
  · rw [hI.row0_zero]
    exact Nat.zero_le _
  · rw [hI.row0_spec d hd (by omega), hI.row0_spec d' (by omega) hd']
    exact row0Spec_mono d d' hdd (catalog cs) 0 _ _ (le_refl _)

/-- C10 witness: concrete instance at durations 3 ≤ 5 after one
registration. -/
theorem C10_row0_monotone_witness :
    ((runCalls [⟨"A", 100, 10⟩]).row0 3).1 ≤ ((runCalls [⟨"A", 100, 10⟩]).row0 5).1 :=
  C10_row0_monotone [⟨"A", 100, 10⟩] 3 5 (by decide) (by decide)

/-! ### Reconstruction -/

theorem tickets_get_of_inv (cat : List Call) (t : TicketsData) (hI : TableInv cat t)
    (i : Nat) (hi : i < cat.length) :
    t.tickets.get? i = some ((cat.getD i noCall).name,
      clamp_expiration ((cat.getD i noCall).expiration)) := by
  rw [hI.tickets_eq, List.get?_map,
    List.get?_eq_get (by simpa using hi)]
  rw [List.getD_eq_getElem cat noCall hi]
  rfl

theorem find_name_roundtrip :
    ∀ (cat : List Call), (cat.map Call.name).Nodup →
      ∀ i, i < cat.length →
        cat.find? (fun c => c.name == (cat.getD i noCall).name)
          = some (cat.getD i noCall) := by
  intro cat
  induction cat with
  | nil => intro _ i hi; simp at hi
  | cons c0 rest ih =>
    intro hnd i hi
    rw [List.map_cons, List.nodup_cons] at hnd
    cases i with
    | zero =>
      simp only [List.getD_cons_zero]
      rw [List.find?_cons_of_pos _ (by simp)]
    | succ k =>
      have hk : k < rest.length := by simpa using hi
      simp only [List.getD_cons_succ]
      rw [List.find?_cons_of_neg, ih hnd.2 k hk]
      simp only [beq_iff_eq]
      intro hceq
      exact hnd.1 (by
        rw [hceq]
        refine List.mem_map_of_mem Call.name ?_
        rw [List.getD_eq_getElem rest noCall hk]
        exact List.getElem_mem hk)

theorem recon0 (cat : List Call) (t : TicketsData) (hI : TableInv cat t) :
    ∀ pos : Int, 0 < pos → pos ≤ (MAX_TRIP_LENGTH : Int) →
      (t.row0 pos.toNat).1 < INT_MAX →
      ∃ i, i < cat.length
        ∧ reconstruct t 1 pos = [(cat.getD i noCall).name]
        ∧ pos.toNat ≤ clamp_expiration ((cat.getD i noCall).expiration)
        ∧ (cat.getD i noCall).price = (t.row0 pos.toNat).1 := by
  intro pos hpos hpos2 hfin
  have hd1 : 1 ≤ pos.toNat := by omega
  have hd2 : pos.toNat ≤ MAX_TRIP_LENGTH := by
    unfold MAX_TRIP_LENGTH at hpos2 ⊢
    omega
  have hspec := hI.row0_spec pos.toNat hd1 hd2
  rcases row0Spec_realize pos.toNat cat 0 (INT_MAX, -1) with heq | ⟨j, hj, heq, hw⟩
  · rw [hspec, heq] at hfin
    exact absurd hfin (lt_irrefl _)
  · have hcell : t.row0 pos.toNat = ((cat.getD j noCall).price, (j : Int)) := by
      rw [hspec, heq]
      norm_num
    refine ⟨j, hj, ?_, hw, by rw [hcell]⟩
    rw [reconstruct, if_pos hpos]
    have hcell' : rowAt t 0 pos.toNat = ((cat.getD j noCall).price, (j : Int)) := hcell
    rw [hcell']
    rw [if_neg (show ¬ ((((cat.getD j noCall).price, (j : Int)) : Cell).2 < 0) by
      simp)]
    rw [show ((((cat.getD j noCall).price, (j : Int)) : Cell).2).toNat = j by simp]
    rw [tickets_get_of_inv cat t hI j hj]
    rfl

theorem recon1 (cat : List Call) (t : TicketsData) (hI : TableInv cat t) :
    ∀ pos : Int, 0 < pos → pos ≤ (MAX_TRIP_LENGTH : Int) →
      (t.row1 pos.toNat).1 < INT_MAX →
      ∃ ids : List Nat, (∀ i ∈ ids, i < cat.length)
        ∧ reconstruct t 2 pos = ids.map (fun i => (cat.getD i noCall).name)
        ∧ ids.length = 2
        ∧ pos.toNat ≤
            (ids.map (fun i => clamp_expiration ((cat.getD i noCall).expiration))).sum
        ∧ (ids.map (fun i => (cat.getD i noCall).price)).sum ≤ (t.row1 pos.toNat).1 := by
  intro pos hpos hpos2 hfin
  have hd1 : 1 ≤ pos.toNat := by omega
  have hd2 : pos.toNat ≤ MAX_TRIP_LENGTH := by
    unfold MAX_TRIP_LENGTH at hpos2 ⊢
    omega
  obtain ⟨i, hi, hid, hwlt, hfin0, hsum⟩ := hI.prov1 pos.toNat hd1 hd2 hfin
  have hpos' : (0 : Int) < pos - (clamp_expiration ((cat.getD i noCall).expiration) : Int) := by
    omega
  have htn : (pos - (clamp_expiration ((cat.getD i noCall).expiration) : Int)).toNat
      = pos.toNat - clamp_expiration ((cat.getD i noCall).expiration) := by
    omega
  obtain ⟨i0, hi0, hrec0, hw0, hp0⟩ := recon0 cat t hI
    (pos - (clamp_expiration ((cat.getD i noCall).expiration) : Int)) hpos'
    (by unfold MAX_TRIP_LENGTH at hpos2 ⊢; omega)
    (by rw [htn]; exact hfin0)
  rw [htn] at hw0 hp0
  refine ⟨[i, i0], ?_, ?_, rfl, ?_, ?_⟩
  · intro x hx
    simp only [List.mem_cons, List.not_mem_nil, or_false] at hx
    rcases hx with rfl | rfl
    · exact hi
    · exact hi0
  · rw [reconstruct, if_pos hpos]
    show (if (rowAt t 1 pos.toNat).2 < 0 then ([] : List String) else
      match t.tickets.get? (rowAt t 1 pos.toNat).2.toNat with
      | some tk => tk.1 :: reconstruct t 1 (pos - (tk.2 : Int))
      | none => []) = List.map (fun i => (cat.getD i noCall).name) [i, i0]
    have hid' : (rowAt t 1 pos.toNat).2 = (i : Int) := hid
    rw [hid']
    rw [if_neg (show ¬ ((i : Int) < 0) by omega)]
    rw [show ((i : Int)).toNat = i by simp]
    rw [tickets_get_of_inv cat t hI i hi]
    show (cat.getD i noCall).name :: reconstruct t 1
        (pos - (clamp_expiration ((cat.getD i noCall).expiration) : Int))
      = List.map (fun i => (cat.getD i noCall).name) [i, i0]
    rw [hrec0]
    simp
  · simp only [List.map_cons, List.map_nil, List.sum_cons, List.sum_nil]
    omega
  · simp only [List.map_cons, List.map_nil, List.sum_cons, List.sum_nil]
    omega

theorem recon2 (cat : List Call) (t : TicketsData) (hI : TableInv cat t) :
    ∀ pos : Int, 0 < pos → pos ≤ (MAX_TRIP_LENGTH : Int) →
      (t.row2 pos.toNat).1 < INT_MAX →
      ∃ ids : List Nat, (∀ i ∈ ids, i < cat.length)
        ∧ reconstruct t 3 pos = ids.map (fun i => (cat.getD i noCall).name)
        ∧ ids.length = 3
        ∧ pos.toNat ≤
            (ids.map (fun i => clamp_expiration ((cat.getD i noCall).expiration))).sum
        ∧ (ids.map (fun i => (cat.getD i noCall).price)).sum ≤ (t.row2 pos.toNat).1 := by
  intro pos hpos hpos2 hfin
  have hd1 : 1 ≤ pos.toNat := by omega
  have hd2 : pos.toNat ≤ MAX_TRIP_LENGTH := by
    unfold MAX_TRIP_LENGTH at hpos2 ⊢
    omega
  obtain ⟨i, hi, hid, hwlt, hfin0, hsum⟩ := hI.prov2 pos.toNat hd1 hd2 hfin
  have hpos' : (0 : Int) < pos - (clamp_expiration ((cat.getD i noCall).expiration) : Int) := by
    omega
  have htn : (pos - (clamp_expiration ((cat.getD i noCall).expiration) : Int)).toNat
      = pos.toNat - clamp_expiration ((cat.getD i noCall).expiration) := by
    omega
  obtain ⟨ids0, hmem0, hrec0, hlen0, hw0, hp0⟩ := recon1 cat t hI
    (pos - (clamp_expiration ((cat.getD i noCall).expiration) : Int)) hpos'
    (by unfold MAX_TRIP_LENGTH at hpos2 ⊢; omega)
    (by rw [htn]; exact hfin0)
  rw [htn] at hw0 hp0
  refine ⟨i :: ids0, ?_, ?_, by simp [hlen0], ?_, ?_⟩
  · intro x hx
    rcases List.mem_cons.1 hx with rfl | hx'
    · exact hi
    · exact hmem0 x hx'
  · rw [reconstruct, if_pos hpos]
    show (if (rowAt t 2 pos.toNat).2 < 0 then ([] : List String) else
      match t.tickets.get? (rowAt t 2 pos.toNat).2.toNat with
      | some tk => tk.1 :: reconstruct t 2 (pos - (tk.2 : Int))
      | none => []) = List.map (fun i => (cat.getD i noCall).name) (i :: ids0)
    have hid' : (rowAt t 2 pos.toNat).2 = (i : Int) := hid
    rw [hid']
    rw [if_neg (show ¬ ((i : Int) < 0) by omega)]
    rw [show ((i : Int)).toNat = i by simp]
    rw [tickets_get_of_inv cat t hI i hi]
    show (cat.getD i noCall).name :: reconstruct t 2
        (pos - (clamp_expiration ((cat.getD i noCall).expiration) : Int))
      = List.map (fun i => (cat.getD i noCall).name) (i :: ids0)
    rw [hrec0]
    simp
  · simp only [List.map_cons, List.sum_cons]
    omega
  · simp only [List.map_cons, List.sum_cons]
    omega

/-! ### The ticket-count selection loop, and claim-level bounds -/

theorem optimal_cases (t : TicketsData) (trip_length : Int)
    (h1 : 0 < trip_length) (h2 : trip_length ≤ (MAX_TRIP_LENGTH : Int))
    (hb : ∀ d, (t.row0 d).1 ≤ INT_MAX ∧ (t.row1 d).1 ≤ INT_MAX ∧ (t.row2 d).1 ≤ INT_MAX) :
    (optimal_ticket_set t trip_length = []
      ∧ (t.row0 trip_length.toNat).1 = INT_MAX
      ∧ (t.row1 trip_length.toNat).1 = INT_MAX
      ∧ (t.row2 trip_length.toNat).1 = INT_MAX)
    ∨ ∃ k, k < 3
        ∧ (rowAt t k trip_length.toNat).1
            = min (t.row0 trip_length.toNat).1
                (min (t.row1 trip_length.toNat).1 (t.row2 trip_length.toNat).1)
        ∧ (rowAt t k trip_length.toNat).1 < INT_MAX
        ∧ optimal_ticket_set t trip_length = reconstruct t (k + 1) trip_length := by
  obtain ⟨hb0, hb1, hb2⟩ := hb trip_length.toNat
  have hopt : optimal_ticket_set t trip_length =
      (if (if (t.row2 trip_length.toNat).1 <
              min (min INT_MAX (t.row0 trip_length.toNat).1) (t.row1 trip_length.toNat).1
            then 3
            else if (t.row1 trip_length.toNat).1 < min INT_MAX (t.row0 trip_length.toNat).1
            then 2
            else if (t.row0 trip_length.toNat).1 < INT_MAX then 1 else 0) = 0
       then []
       else reconstruct t
          (if (t.row2 trip_length.toNat).1 <
              min (min INT_MAX (t.row0 trip_length.toNat).1) (t.row1 trip_length.toNat).1
            then 3
            else if (t.row1 trip_length.toNat).1 < min INT_MAX (t.row0 trip_length.toNat).1
            then 2
            else if (t.row0 trip_length.toNat).1 < INT_MAX then 1 else 0) trip_length) := by
    unfold optimal_ticket_set
    rw [if_neg (by omega)]
  rw [hopt]
  rw [Nat.min_eq_right hb0]
  by_cases hc2 : (t.row2 trip_length.toNat).1 <
      min (t.row0 trip_length.toNat).1 (t.row1 trip_length.toNat).1
  · rw [if_pos hc2, if_neg (by omega : ¬ (3 = 0))]
    right
    refine ⟨2, by omega, ?_, ?_, rfl⟩
    · show (t.row2 trip_length.toNat).1 = _
      have hA := min_le_left (t.row0 trip_length.toNat).1 (t.row1 trip_length.toNat).1
      have hB := min_le_right (t.row0 trip_length.toNat).1 (t.row1 trip_length.toNat).1
      have h12 : min (t.row1 trip_length.toNat).1 (t.row2 trip_length.toNat).1
          = (t.row2 trip_length.toNat).1 := Nat.min_eq_right (by omega)
      rw [h12]
      exact (Nat.min_eq_right (by omega)).symm
    · show (t.row2 trip_length.toNat).1 < INT_MAX
      have hA := min_le_left (t.row0 trip_length.toNat).1 (t.row1 trip_length.toNat).1
      omega
  · rw [if_neg hc2]
    by_cases hc1 : (t.row1 trip_length.toNat).1 < (t.row0 trip_length.toNat).1
    · rw [if_pos hc1, if_neg (by omega : ¬ (2 = 0))]
      right
      refine ⟨1, by omega, ?_, ?_, rfl⟩
      · show (t.row1 trip_length.toNat).1 = _
        have hA := min_le_iff.1 (le_of_not_lt hc2)
        have h12 : min (t.row1 trip_length.toNat).1 (t.row2 trip_length.toNat).1
            = (t.row1 trip_length.toNat).1 := Nat.min_eq_left (by omega)
        rw [h12]
        exact (Nat.min_eq_right (le_of_lt hc1)).symm
      · show (t.row1 trip_length.toNat).1 < INT_MAX
        omega
    · rw [if_neg hc1]
      by_cases hc0 : (t.row0 trip_length.toNat).1 < INT_MAX
      · rw [if_pos hc0, if_neg (by omega : ¬ (1 = 0))]
        right
        refine ⟨0, by omega, ?_, hc0, rfl⟩
        show (t.row0 trip_length.toNat).1 = _
        have hA := min_le_iff.1 (le_of_not_lt hc2)
        have h12 : min (t.row1 trip_length.toNat).1 (t.row2 trip_length.toNat).1
            ≥ (t.row0 trip_length.toNat).1 := le_min (by omega) (by omega)
        exact (Nat.min_eq_left h12).symm
      · rw [if_neg hc0, if_pos rfl]
        left
        have hA := min_le_iff.1 (le_of_not_lt hc2)
        exact ⟨rfl, by omega, by omega, by omega⟩

theorem pick_bound (cat : List Call) (t : TicketsData) (hI : TableInv cat t)
    (d : Nat) (h1 : 1 ≤ d) (h2 : d ≤ MAX_TRIP_LENGTH) :
    ∀ l : List Nat, l.length ≤ 3 → validPick cat l d →
      min (t.row0 d).1 (min (t.row1 d).1 (t.row2 d).1)
        ≤ min INT_MAX (pickPrice cat l) := by
  intro l hlen hvp
  obtain ⟨hmem, hcov⟩ := hvp
  rcases l with _ | ⟨a, l1⟩
  · exfalso
    simp at hcov
    omega
  rcases l1 with _ | ⟨b, l2⟩
  · have ha := hmem a (by simp)
    have hwa : d ≤ clamp_expiration ((cat.getD a noCall).expiration) := by
      simpa using hcov
    have hr0 : (t.row0 d).1 ≤ (cat.getD a noCall).price := by
      rw [hI.row0_spec d h1 h2]
      exact row0Spec_le_mem d cat 0 _ a ha hwa
    have hpp : pickPrice cat [a] = (cat.getD a noCall).price := by
      simp [pickPrice]
    rw [hpp]
    exact le_min (le_trans (min_le_left _ _) (hI.bounded d).1)
      (le_trans (min_le_left _ _) hr0)
  rcases l2 with _ | ⟨c, l3⟩
  · have ha := hmem a (by simp)
    have hb := hmem b (by simp)
    have hcov' : d ≤ clamp_expiration ((cat.getD a noCall).expiration)
        + clamp_expiration ((cat.getD b noCall).expiration) := by
      simp only [List.map_cons, List.map_nil, List.sum_cons, List.sum_nil] at hcov
      omega
    have hpp : pickPrice cat [a, b] =
        (cat.getD a noCall).price + (cat.getD b noCall).price := by
      simp [pickPrice]
    rw [hpp]
    exact le_trans
      (le_min (min_le_left _ _) (le_trans (min_le_right _ _) (min_le_left _ _)))
      (hI.pair_bound d h1 h2 a b ha hb hcov')
  rcases l3 with _ | ⟨x, l4⟩
  · have ha := hmem a (by simp)
    have hb := hmem b (by simp)
    have hc := hmem c (by simp)
    have hcov' : d ≤ clamp_expiration ((cat.getD a noCall).expiration)
        + clamp_expiration ((cat.getD b noCall).expiration)
        + clamp_expiration ((cat.getD c noCall).expiration) := by
      simp only [List.map_cons, List.map_nil, List.sum_cons, List.sum_nil] at hcov
      omega
    have hpp : pickPrice cat [a, b, c] =
        (cat.getD a noCall).price + (cat.getD b noCall).price
          + (cat.getD c noCall).price := by
      simp [pickPrice]
      omega
    rw [hpp]
    exact hI.triple_bound d h1 h2 a b c ha hb hc hcov'
  · exfalso
    simp at hlen

theorem recon_of_cases (cs : List Call) (k : Nat) (hk : k < 3) (d : Int)
    (hd1 : 0 < d) (hd2 : d ≤ (MAX_TRIP_LENGTH : Int))
    (hfin : (rowAt (runCalls cs) k d.toNat).1 < INT_MAX) :
    ∃ ids : List Nat, (∀ i ∈ ids, i < (catalog cs).length)
      ∧ reconstruct (runCalls cs) (k + 1) d
          = ids.map (fun i => ((catalog cs).getD i noCall).name)
      ∧ ids.length = k + 1
      ∧ d.toNat ≤ (ids.map (fun i =>
          clamp_expiration (((catalog cs).getD i noCall).expiration))).sum
      ∧ (ids.map (fun i => ((catalog cs).getD i noCall).price)).sum
          ≤ (rowAt (runCalls cs) k d.toNat).1 := by
  have hI := TableInv_runCalls cs
  interval_cases k
  · obtain ⟨i, hi, hr, hw, hp⟩ := recon0 (catalog cs) (runCalls cs) hI d hd1 hd2 hfin
    refine ⟨[i], ?_, ?_, rfl, ?_, ?_⟩
    · intro x hx
      rw [List.mem_singleton] at hx
      subst hx
      exact hi
    · rw [hr]
      rfl
    · simp only [List.map_cons, List.map_nil, List.sum_cons, List.sum_nil]
      omega
    · simp only [List.map_cons, List.map_nil, List.sum_cons, List.sum_nil]
      have hrw : rowAt (runCalls cs) 0 d.toNat = (runCalls cs).row0 d.toNat := rfl
      rw [hrw]
      omega
  · exact recon1 (catalog cs) (runCalls cs) hI d hd1 hd2 hfin
  · exact recon2 (catalog cs) (runCalls cs) hI d hd1 hd2 hfin

/-- C4 (amended): whenever best_combination returns a non-empty list, it has
at most 3 tickets and the clamped windows of the returned tickets sum to at
least the queried duration: the reconstruction loop covers the whole trip,
every step before the last subtracting exactly the provenance ticket's
window and the final ticket's window covering (possibly overshooting) the
remainder. -/
theorem C4_reconstruction_covers :
    ∀ (cs : List Call) (d : Int),
      optimal_ticket_set (runCalls cs) d ≠ [] →
      (optimal_ticket_set (runCalls cs) d).length ≤ 3
      ∧ d.toNat ≤ ((optimal_ticket_set (runCalls cs) d).map
          (windowOfName (catalog cs))).sum := by
  intro cs d hne
  have hI := TableInv_runCalls cs
  have hd1 : 0 < d := by
    by_contra hc
    apply hne
    unfold optimal_ticket_set
    rw [if_pos (Or.inr (by omega))]
  have hd2 : d ≤ (MAX_TRIP_LENGTH : Int) := by
    by_contra hc
    apply hne
    unfold optimal_ticket_set
    rw [if_pos (Or.inl (by omega))]
  rcases optimal_cases (runCalls cs) d hd1 hd2 hI.bounded with ⟨hemp, _⟩ |
    ⟨k, hk, hmin, hfin, heqr⟩
  · exact absurd hemp hne
  · obtain ⟨ids, hmem, hrec, hlen, hwsum, _⟩ := recon_of_cases cs k hk d hd1 hd2 hfin
    rw [heqr, hrec]
    constructor
    · rw [List.length_map, hlen]
      omega
    · rw [List.map_map]
      have hcong : ids.map (windowOfName (catalog cs) ∘ fun i =>
            ((catalog cs).getD i noCall).name)
          = ids.map (fun i =>
              clamp_expiration (((catalog cs).getD i noCall).expiration)) := by
        apply List.map_congr_left
        intro i hi
        show windowOfName (catalog cs) (((catalog cs).getD i noCall).name) = _
        unfold windowOfName
        rw [find_name_roundtrip (catalog cs) hI.names_nodup i (hmem i hi)]
      rw [hcong]
      exact hwsum

/-- C4 witness: with the single ticket A (price 100, window 10) registered,
best_combination(5) is non-empty, has ≤ 3 names and windows summing ≥ 5. -/
theorem C4_reconstruction_covers_witness :
    (optimal_ticket_set (runCalls [⟨"A", 100, 10⟩]) 5).length ≤ 3
    ∧ (5 : Int).toNat ≤ ((optimal_ticket_set (runCalls [⟨"A", 100, 10⟩]) 5).map
        (windowOfName (catalog [⟨"A", 100, 10⟩]))).sum :=
  C4_reconstruction_covers [⟨"A", 100, 10⟩] 5 (by decide)

/-- C1 (amended): for every trip duration d with 0 < d ≤ MAX_TRIP_LENGTH and
after every sequence of register_ticket calls, best_combination(d) returns a
non-empty list exactly when some multiset of at most 3 registered tickets
has clamped windows summing to at least d AND total price below the INT_MAX
sentinel; and in that case the total price of the returned tickets equals
the minimum total price over all such multisets (it is realised by one
covering multiset, and is a lower bound for every covering multiset). -/
theorem C1_best_combination_optimal :
    ∀ (cs : List Call) (d : Int), 0 < d → d ≤ (MAX_TRIP_LENGTH : Int) →
      ((optimal_ticket_set (runCalls cs) d ≠ []) ↔
        ∃ l : List Nat, l.length ≤ 3 ∧ validPick (catalog cs) l d.toNat
          ∧ pickPrice (catalog cs) l < INT_MAX)
      ∧ (optimal_ticket_set (runCalls cs) d ≠ [] →
          (∃ l : List Nat, l.length ≤ 3 ∧ validPick (catalog cs) l d.toNat
            ∧ pickPrice (catalog cs) l
                = totalPrice (catalog cs) (optimal_ticket_set (runCalls cs) d))
          ∧ ∀ l : List Nat, l.length ≤ 3 → validPick (catalog cs) l d.toNat →
              totalPrice (catalog cs) (optimal_ticket_set (runCalls cs) d)
                ≤ pickPrice (catalog cs) l) := by
  intro cs d hd1 hd2
  have hI := TableInv_runCalls cs
  have hdn1 : 1 ≤ d.toNat := by omega
  have hdn2 : d.toNat ≤ MAX_TRIP_LENGTH := by
    unfold MAX_TRIP_LENGTH at hd2 ⊢
    omega
  rcases optimal_cases (runCalls cs) d hd1 hd2 hI.bounded with ⟨hemp, h0, h1', h2'⟩ |
    ⟨k, hk, hmin, hfin, heqr⟩
  · constructor
    · constructor
      · intro hne
        exact absurd hemp hne
      · rintro ⟨l, hlen, hvp, hppM⟩
        exfalso
        have hpb := pick_bound (catalog cs) (runCalls cs) hI d.toNat hdn1 hdn2 l hlen hvp
        rw [h0, h1', h2', Nat.min_eq_right (le_of_lt hppM)] at hpb
        simp at hpb
        omega
    · intro hne
      exact absurd hemp hne
  · obtain ⟨ids, hmem, hrec, hlen, hwsum, hpsum⟩ := recon_of_cases cs k hk d hd1 hd2 hfin
    have hres : optimal_ticket_set (runCalls cs) d
        = ids.map (fun i => ((catalog cs).getD i noCall).name) := by
      rw [heqr, hrec]
    have htotal : totalPrice (catalog cs) (optimal_ticket_set (runCalls cs) d)
        = pickPrice (catalog cs) ids := by
      rw [hres]
      unfold totalPrice pickPrice
      rw [List.map_map]
      apply congrArg List.sum
      apply List.map_congr_left
      intro i hi
      show priceOfName (catalog cs) (((catalog cs).getD i noCall).name) = _
      unfold priceOfName
      rw [find_name_roundtrip (catalog cs) hI.names_nodup i (hmem i hi)]
    have hne : optimal_ticket_set (runCalls cs) d ≠ [] := by
      rw [hres]
      intro hc
      rw [List.map_eq_nil] at hc
      rw [hc] at hlen
      simp at hlen
    have hppick : pickPrice (catalog cs) ids ≤ (rowAt (runCalls cs) k d.toNat).1 := hpsum
    have hvalid : validPick (catalog cs) ids d.toNat := ⟨hmem, hwsum⟩
    constructor
    · constructor
      · intro _
        exact ⟨ids, by omega, hvalid, lt_of_le_of_lt hppick hfin⟩
      · intro _
        exact hne
    · intro _
      refine ⟨⟨ids, by omega, hvalid, htotal.symm⟩, ?_⟩
      intro l hl hvp
      have hpb := pick_bound (catalog cs) (runCalls cs) hI d.toNat hdn1 hdn2 l hl hvp
      rw [← hmin] at hpb
      rw [htotal]
      exact le_trans hppick (le_trans hpb (min_le_right _ _))

/-- C1 witness: with one ticket A (price 100, window 10), the equivalence
and the optimality clause hold at duration 5. -/
theorem C1_best_combination_optimal_witness :
    ((optimal_ticket_set (runCalls [⟨"A", 100, 10⟩]) 5 ≠ []) ↔
      ∃ l : List Nat, l.length ≤ 3 ∧ validPick (catalog [⟨"A", 100, 10⟩]) l (5 : Int).toNat
        ∧ pickPrice (catalog [⟨"A", 100, 10⟩]) l < INT_MAX)
    ∧ (optimal_ticket_set (runCalls [⟨"A", 100, 10⟩]) 5 ≠ [] →
        (∃ l : List Nat, l.length ≤ 3 ∧ validPick (catalog [⟨"A", 100, 10⟩]) l (5 : Int).toNat
          ∧ pickPrice (catalog [⟨"A", 100, 10⟩]) l
              = totalPrice (catalog [⟨"A", 100, 10⟩])
                  (optimal_ticket_set (runCalls [⟨"A", 100, 10⟩]) 5))
        ∧ ∀ l : List Nat, l.length ≤ 3 → validPick (catalog [⟨"A", 100, 10⟩]) l (5 : Int).toNat →
            totalPrice (catalog [⟨"A", 100, 10⟩])
                (optimal_ticket_set (runCalls [⟨"A", 100, 10⟩]) 5)
              ≤ pickPrice (catalog [⟨"A", 100, 10⟩]) l) :=
  C1_best_combination_optimal [⟨"A", 100, 10⟩] 5 (by decide) (by decide)

end Kasa
